import Mathlib

/-!
Shallow embedding of the raster-to-geometry overlay engine of
`static/js/flood-zone-manager.js` (class `FloodZoneManager`), and proofs of
the specification claims about it.

Modelling conventions:
* JS numbers are embedded as `ℚ` (all operations the claims touch are exact
  field arithmetic; no rounding is involved).
* The canvas `ImageData.data` byte array is embedded as a function from the
  flat byte index to the byte value; pixel coordinates are `ℕ`.
* The mutable maps of the manager (`overlays`, `anchors`, `baseZoneSizes`,
  `contentBoundsCache`) are embedded as functions `ℕ → Option _` keyed by
  zone id, and the manager object as an explicit state record.
* `Math.sqrt` appears in the source only inside order comparisons
  (`dist < threshold`, `dist < nearestDist`, `dist > maxDist`,
  `maxDist > tolerance` with nonnegative thresholds); since `sqrt` is
  monotone we embed squared distances and squared thresholds throughout.
-/

namespace FloodZone

/-- Geographic rectangle, the JS array `[[south, west], [north, east]]`. -/
structure Bounds where
  south : ℚ
  west : ℚ
  north : ℚ
  east : ℚ
deriving DecidableEq

/-- Cached base size of a zone: entry of `this.baseZoneSizes`. -/
structure BaseSize where
  latSize : ℚ
  lngSize : ℚ
deriving DecidableEq

/-- Result of `detectImageContentBounds`: normalized rectangle of colored
pixels plus the raster dimensions. -/
structure ContentBounds where
  minX : ℚ
  minY : ℚ
  maxX : ℚ
  maxY : ℚ
  imgWidth : ℕ
  imgHeight : ℕ
deriving DecidableEq

/-- A zone record as held in `this.zones` (fields the engine reads/writes). -/
structure Zone where
  id : ℕ
  name : String
  bounds : Bounds
  image_path : String
  opacity : ℚ
  rotation : ℚ
deriving DecidableEq

/-- A Leaflet image overlay as far as the engine observes it: whether
`overlay.getElement()` is non-null, whether the element contains an `img`,
the displayed bounds (`overlay.getBounds()` / `overlay.setBounds(...)`), and
the CSS rotation applied to the element. -/
structure Overlay where
  hasElement : Bool
  hasImg : Bool
  bounds : Bounds
  rotationDeg : ℚ
deriving DecidableEq

/-- The mutable state of the `FloodZoneManager` instance (the fields the
claims are about). -/
structure ManagerState where
  zones : List Zone
  overlays : ℕ → Option Overlay
  contentBoundsCache : ℕ → Option ContentBounds
  anchors : ℕ → Option (ℚ × ℚ)
  baseZoneSizes : ℕ → Option BaseSize
  currentScale : ℚ
  currentRotation : ℚ
  saveBtnPresent : Bool

/-- Point update of a zone-id-keyed map. -/
def updateMap {α : Type} (m : ℕ → Option α) (k : ℕ) (v : Option α) : ℕ → Option α :=
  fun j => if j = k then v else m j

/-- `isPointInBounds(point, bounds)`:
`lat >= south && lat <= north && lng >= west && lng <= east`. -/
def isPointInBounds (point : ℚ × ℚ) (bounds : Bounds) : Bool :=
  decide (bounds.south ≤ point.1) && decide (point.1 ≤ bounds.north) &&
  decide (bounds.west ≤ point.2) && decide (point.2 ≤ bounds.east)

/-- The normalized position of a geographic point inside a bounds rectangle,
as computed inline in `isPointOverColoredPixels` (lines 910-911):
`normX = (lng - west) / (east - west)`, `normY = (north - lat) / (north - south)`. -/
def geoToNorm (point : ℚ × ℚ) (bounds : Bounds) : ℚ × ℚ :=
  ((point.2 - bounds.west) / (bounds.east - bounds.west),
   (bounds.north - point.1) / (bounds.north - bounds.south))

/-- The geographic-to-pixel conversion: the inline normalization of
`isPointOverColoredPixels` scaled by the raster dimensions (the inverse
direction of `pixelsToLatLng`). -/
def geoToPixel (point : ℚ × ℚ) (imageWidth imageHeight : ℚ) (bounds : Bounds) : ℚ × ℚ :=
  ((geoToNorm point bounds).1 * imageWidth, (geoToNorm point bounds).2 * imageHeight)

/-- `isPointOverColoredPixels(point, overlay, zone)`.  The source returns
`false` when `overlay.getElement()` or its `img` child is missing, `true`
when no content bounds are cached for the zone, and otherwise tests the
normalized position against the cached content bounds.  (The `catch`
branch, which also returns `true`, corresponds to a DOM exception and has
no counterpart in the pure embedding.) -/
def isPointOverColoredPixels (point : ℚ × ℚ) (overlay : Overlay)
    (cachedContentBounds : Option ContentBounds) : Bool :=
  if !overlay.hasElement then false
  else if !overlay.hasImg then false
  else
    match cachedContentBounds with
    | none => true
    | some cb =>
      let n := geoToNorm point overlay.bounds
      decide (cb.minX ≤ n.1) && decide (n.1 ≤ cb.maxX) &&
      decide (cb.minY ≤ n.2) && decide (n.2 ≤ cb.maxY)

/-- The loop body of `getZoneAtPoint` over `[...this.zones].reverse()`. -/
def getZoneAtPointAux (s : ManagerState) (point : ℚ × ℚ) (checkPixels : Bool) :
    List Zone → Option Zone
  | [] => none
  | zone :: rest =>
    if isPointInBounds point zone.bounds then
      if !checkPixels then some zone
      else
        match s.overlays zone.id with
        | some overlay =>
          if isPointOverColoredPixels point overlay (s.contentBoundsCache zone.id) then
            some zone
          else
            getZoneAtPointAux s point checkPixels rest
        | none => some zone
    else
      getZoneAtPointAux s point checkPixels rest

/-- `getZoneAtPoint(lat, lng, checkPixels)`. -/
def getZoneAtPoint (s : ManagerState) (lat lng : ℚ) (checkPixels : Bool) : Option Zone :=
  getZoneAtPointAux s (lat, lng) checkPixels s.zones.reverse

/-- `applyScaleToZone(zoneId, scaleFactor)`: recompute displayed bounds from
the cached base size and the anchor, and `overlay.setBounds(newBounds)`.
Aborts (state unchanged) when the overlay, anchor or base size is missing. -/
def applyScaleToZone (s : ManagerState) (zoneId : ℕ) (scaleFactor : ℚ) : ManagerState :=
  match s.overlays zoneId, s.anchors zoneId, s.baseZoneSizes zoneId with
  | some overlay, some center, some baseSize =>
    let scaledLatSize := baseSize.latSize * scaleFactor
    let scaledLngSize := baseSize.lngSize * scaleFactor
    let newBounds : Bounds :=
      { south := center.1 - scaledLatSize / 2
        west := center.2 - scaledLngSize / 2
        north := center.1 + scaledLatSize / 2
        east := center.2 + scaledLngSize / 2 }
    { s with overlays := updateMap s.overlays zoneId (some { overlay with bounds := newBounds }) }
  | _, _, _ => s

/-- `applyRotationToZone(zoneId, rotationDegrees)`: pure CSS transform on the
overlay element; no bounds are touched.  No-op when the overlay or its
element is missing. -/
def applyRotationToZone (s : ManagerState) (zoneId : ℕ) (rotationDegrees : ℚ) : ManagerState :=
  match s.overlays zoneId with
  | none => s
  | some overlay =>
    if overlay.hasElement then
      { s with overlays :=
          updateMap s.overlays zoneId (some { overlay with rotationDeg := rotationDegrees }) }
    else s

/-- A preview operation: a call to `applyScaleToZone` or `applyRotationToZone`. -/
inductive PreviewOp : Type
  | scale (zoneId : ℕ) (factor : ℚ)
  | rotate (zoneId : ℕ) (degrees : ℚ)

def applyPreviewOp (s : ManagerState) : PreviewOp → ManagerState
  | .scale zoneId factor => applyScaleToZone s zoneId factor
  | .rotate zoneId degrees => applyRotationToZone s zoneId degrees

/-- A sequence of preview operations without an intervening commit. -/
def applyPreviews (s : ManagerState) (ops : List PreviewOp) : ManagerState :=
  ops.foldl applyPreviewOp s

/-- The success path of `updateZone(zoneId, zoneData)` on the local list:
`this.zones[idx] = { ...zoneData, id: zoneId }` at the first index whose
zone has the given id. -/
def updateZoneLocal (zoneId : ℕ) (zoneData : Zone) : List Zone → List Zone
  | [] => []
  | z :: rest =>
    if z.id = zoneId then { zoneData with id := zoneId } :: rest
    else z :: updateZoneLocal zoneId zoneData rest

/-- `saveZoneTransform(zoneId)` (the commit).  Computes the scaled bounds
exactly as `applyScaleToZone` does, persists them as the new base bounds
together with the current rotation via `updateZone`, replaces the cached
base size with the scaled size, and resets the live scale to 100.  The
error paths (zone not found, save button missing, anchor or base size
missing) leave the state unchanged.  `loadZones()` re-reads the records
just persisted by `updateZone` and, for a zone whose overlay is already
displayed, neither replaces the overlay nor the cached base size
(`displayZones` only adds overlays that are absent, and `addZoneOverlay`
only sets `baseZoneSizes` for ids not yet present). -/
def saveZoneTransform (s : ManagerState) (zoneId : ℕ) : ManagerState :=
  match s.zones.find? (fun z => z.id = zoneId) with
  | none => s
  | some zone =>
    if !s.saveBtnPresent then s
    else
      let scaleFactor := s.currentScale / 100
      match s.anchors zoneId, s.baseZoneSizes zoneId with
      | some center, some baseSize =>
        let scaledLatSize := baseSize.latSize * scaleFactor
        let scaledLngSize := baseSize.lngSize * scaleFactor
        let newBounds : Bounds :=
          { south := center.1 - scaledLatSize / 2
            west := center.2 - scaledLngSize / 2
            north := center.1 + scaledLatSize / 2
            east := center.2 + scaledLngSize / 2 }
        let updatedZoneData : Zone :=
          { id := zoneId
            name := zone.name
            image_path := zone.image_path
            bounds := newBounds
            opacity := if zone.opacity = 0 then 0.6 else zone.opacity
            rotation := s.currentRotation }
        { s with
            zones := updateZoneLocal zoneId updatedZoneData s.zones
            baseZoneSizes := updateMap s.baseZoneSizes zoneId
              (some { latSize := scaledLatSize, lngSize := scaledLngSize })
            currentScale := 100 }
      | _, _ => s

/-! ## Raster sampling and content-bounds detection -/

/-- A decoded raster: canvas dimensions and the RGBA byte buffer
(`ImageData.data`), embedded as a function from flat byte index to byte. -/
structure Image where
  width : ℕ
  height : ℕ
  data : ℕ → ℕ

/-- The alpha byte of pixel `(x, y)`: `data[(y * width + x) * 4 + 3]`. -/
def alphaAt (img : Image) (x y : ℕ) : ℕ :=
  img.data ((y * img.width + x) * 4 + 3)

/-- The colored-pixel rule used throughout the engine: `alpha >= 10`. -/
def coloredAt (img : Image) (x y : ℕ) : Bool :=
  decide (10 ≤ alphaAt img x y)

/-- All pixel coordinates in the scan order of the nested loops
(`y` outer from 0, `x` inner from 0). -/
def pixelsInScanOrder (w h : ℕ) : List (ℕ × ℕ) :=
  (List.range h).flatMap fun y => (List.range w).map fun x => (x, y)

/-- Accumulator of the `detectImageContentBounds` scan loop. -/
structure ScanState where
  minX : ℕ
  minY : ℕ
  maxX : ℕ
  maxY : ℕ
  found : Bool
deriving DecidableEq

/-- One iteration of the `detectImageContentBounds` scan:
update min/max when `alpha >= 10`. -/
def scanPixel (img : Image) (st : ScanState) (p : ℕ × ℕ) : ScanState :=
  if 10 ≤ alphaAt img p.1 p.2 then
    { minX := if p.1 < st.minX then p.1 else st.minX
      maxX := if p.1 > st.maxX then p.1 else st.maxX
      minY := if p.2 < st.minY then p.2 else st.minY
      maxY := if p.2 > st.maxY then p.2 else st.maxY
      found := true }
  else st

/-- `detectImageContentBounds(imgElement)`: scan all pixels; if some pixel
has `alpha >= 10` return the normalized bounding rectangle
(`maxX`/`maxY` get `+1` to include the extreme pixel), else `null`. -/
def detectImageContentBounds (img : Image) : Option ContentBounds :=
  let st := (pixelsInScanOrder img.width img.height).foldl (scanPixel img)
    { minX := img.width, minY := img.height, maxX := 0, maxY := 0, found := false }
  if st.found then
    some { minX := (st.minX : ℚ) / img.width
           minY := (st.minY : ℚ) / img.height
           maxX := ((st.maxX : ℚ) + 1) / img.width
           maxY := ((st.maxY : ℚ) + 1) / img.height
           imgWidth := img.width
           imgHeight := img.height }
  else none

/-- `adjustOverlayBoundsToContent(imageOverlay, contentBounds, originalBounds)`
(the `imageOverlay` argument is unused by the source computation). -/
def adjustOverlayBoundsToContent (contentBounds : Option ContentBounds)
    (originalBounds : Bounds) : Bounds :=
  match contentBounds with
  | none => originalBounds
  | some cb =>
    let latRange := originalBounds.north - originalBounds.south
    let lngRange := originalBounds.east - originalBounds.west
    { south := originalBounds.north - latRange * cb.maxY
      west := originalBounds.west + lngRange * cb.minX
      north := originalBounds.north - latRange * cb.minY
      east := originalBounds.west + lngRange * cb.maxX }

/-! ## Coordinate mapper -/

/-- `pixelsToLatLng(pixels, imageWidth, imageHeight, bounds)`: each pixel
`[x, y]` maps to `[lat, lng]` with `lng = west + lngRange * (x / W)` and
`lat = north - latRange * (y / H)` (image row 0 is the northern edge). -/
def pixelsToLatLng (pixels : List (ℚ × ℚ)) (imageWidth imageHeight : ℚ)
    (bounds : Bounds) : List (ℚ × ℚ) :=
  let latRange := bounds.north - bounds.south
  let lngRange := bounds.east - bounds.west
  pixels.map fun p =>
    let normX := p.1 / imageWidth
    let normY := p.2 / imageHeight
    (bounds.north - latRange * normY, bounds.west + lngRange * normX)

/-! ## Perimeter extractor -/

/-- Edge-pixel test of `detectColorPerimeter`: a colored pixel on the image
border, or a colored pixel one of whose four orthogonal neighbours
(up, right, down, left) is not colored. -/
def isEdgePixel (img : Image) (x y : ℕ) : Bool :=
  coloredAt img x y &&
  (decide (x = 0) || decide (x = img.width - 1) ||
   decide (y = 0) || decide (y = img.height - 1) ||
   !coloredAt img x (y - 1) || !coloredAt img (x + 1) y ||
   !coloredAt img x (y + 1) || !coloredAt img (x - 1) y)

/-- The edge pixels of the raster in scan order. -/
def edgePixels (img : Image) : List (ℕ × ℕ) :=
  (pixelsInScanOrder img.width img.height).filter fun p => isEdgePixel img p.1 p.2

/-- Pixel coordinates as a JS number pair. -/
def toQPoint (p : ℕ × ℕ) : ℚ × ℚ := ((p.1 : ℚ), (p.2 : ℚ))

/-- Squared euclidean distance.  The source computes
`Math.sqrt((x-sx)**2 + (y-sy)**2)` and only compares it against
thresholds, so the embedding works with squares. -/
def distSq (a b : ℚ × ℚ) : ℚ :=
  (a.1 - b.1) ^ 2 + (a.2 - b.2) ^ 2

/-- The pre-simplification of `detectColorPerimeter`: keep a point only if
no already-kept point is within distance 2 (squared: 4). -/
def simplifyClose (pts : List (ℚ × ℚ)) : List (ℚ × ℚ) :=
  pts.foldl
    (fun simplified p =>
      if simplified.any (fun q => decide (distSq p q < 4)) then simplified
      else simplified ++ [p])
    []

/-- The inner nearest-neighbour search of the path-stitching loop: index of
the first point of `first :: rest` at minimal (squared) distance from
`current`, together with that distance.  The source starts from
`nearestDist = Infinity`, so the first iteration always updates; the
embedding starts the fold from the value at index 0. -/
def nearestScan (current first : ℚ × ℚ) (rest : List (ℚ × ℚ)) : ℚ × ℕ :=
  (List.range' 1 rest.length).foldl
    (fun acc i =>
      let d := distSq current ((first :: rest).getD i first)
      if d < acc.1 then (d, i) else acc)
    (distSq current first, 0)

lemma nearestScan_idx_lt (current first : ℚ × ℚ) (rest : List (ℚ × ℚ)) :
    (nearestScan current first rest).2 < rest.length + 1 := by
  unfold nearestScan
  have h : ∀ (l : List ℕ) (acc : ℚ × ℕ), (∀ i ∈ l, i < rest.length + 1) →
      acc.2 < rest.length + 1 →
      (l.foldl (fun acc i =>
        let d := distSq current ((first :: rest).getD i first)
        if d < acc.1 then (d, i) else acc) acc).2 < rest.length + 1 := by
    intro l
    induction l with
    | nil => intro acc _ hacc; simpa using hacc
    | cons i t ih =>
      intro acc hl hacc
      simp only [List.foldl_cons]
      apply ih
      · intro j hj; exact hl j (List.mem_cons_of_mem _ hj)
      · split
        · exact hl i (List.mem_cons_self i t)
        · exact hacc
  apply h
  · intro i hi
    have := List.mem_range'_1.mp hi
    omega
  · simp

/-- The nearest-neighbour path-stitching loop of `detectColorPerimeter`:
repeatedly step to the nearest unvisited point; if the nearest point is
further than 50 px (squared: 2500) while the path already has more than 10
points, start a new segment at the first remaining point instead. -/
def buildPath (path : List (ℚ × ℚ)) (current : ℚ × ℚ) (remaining : List (ℚ × ℚ)) :
    List (ℚ × ℚ) :=
  match remaining with
  | [] => path
  | r :: rest =>
    let scan := nearestScan current r rest
    if 2500 < scan.1 ∧ 10 < path.length then
      buildPath (path ++ [r]) r rest
    else
      let c := (r :: rest).getD scan.2 r
      buildPath (path ++ [c]) c ((r :: rest).eraseIdx scan.2)
termination_by remaining.length
decreasing_by
  · simp
  · have h := nearestScan_idx_lt current r rest
    have := List.length_eraseIdx_of_lt (l := r :: rest) (i := (nearestScan current r rest).2)
      (by simpa using h)
    simp only [List.length_cons] at this ⊢
    omega

/-- Squared form of `pointToLineDistance(point, lineStart, lineEnd)`
(perpendicular distance from a point to a line segment; the source takes
`Math.sqrt` of the value embedded here). -/
def pointToLineDistanceSq (point lineStart lineEnd : ℚ × ℚ) : ℚ :=
  let a := point.1 - lineStart.1
  let b := point.2 - lineStart.2
  let c := lineEnd.1 - lineStart.1
  let d := lineEnd.2 - lineStart.2
  let dot := a * c + b * d
  let lenSq := c * c + d * d
  let param : ℚ := if lenSq ≠ 0 then dot / lenSq else -1
  let xx := if param < 0 then lineStart.1
            else if param > 1 then lineEnd.1
            else lineStart.1 + param * c
  let yy := if param < 0 then lineStart.2
            else if param > 1 then lineEnd.2
            else lineStart.2 + param * d
  (point.1 - xx) ^ 2 + (point.2 - yy) ^ 2

/-- The scan of `douglasPeucker` over the interior indices
`i = 1 .. points.length - 2`: squared maximal deviation from the
first-to-last segment and the first index attaining it. -/
def dpScan (points : List (ℚ × ℚ)) : ℚ × ℕ :=
  (List.range' 1 (points.length - 1 - 1)).foldl
    (fun acc i =>
      let d := pointToLineDistanceSq (points.getD i (0, 0)) (points.getD 0 (0, 0))
        (points.getD (points.length - 1) (0, 0))
      if d > acc.1 then (d, i) else acc)
    (0, 0)

lemma dpScan_of_pos (points : List (ℚ × ℚ)) (h : 0 < (dpScan points).1) :
    1 ≤ (dpScan points).2 ∧ (dpScan points).2 < points.length - 1 := by
  unfold dpScan at h ⊢
  have key : ∀ (l : List ℕ) (acc : ℚ × ℕ),
      (∀ i ∈ l, 1 ≤ i ∧ i < points.length - 1) →
      (acc = (0, 0) ∨ (1 ≤ acc.2 ∧ acc.2 < points.length - 1)) →
      (let r := l.foldl (fun acc i =>
          let d := pointToLineDistanceSq (points.getD i (0, 0)) (points.getD 0 (0, 0))
            (points.getD (points.length - 1) (0, 0))
          if d > acc.1 then (d, i) else acc) acc
       r = (0, 0) ∨ (1 ≤ r.2 ∧ r.2 < points.length - 1)) := by
    intro l
    induction l with
    | nil => intro acc _ hacc; simpa using hacc
    | cons i t ih =>
      intro acc hl hacc
      simp only [List.foldl_cons]
      apply ih
      · intro j hj; exact hl j (List.mem_cons_of_mem _ hj)
      · split
        · exact Or.inr (hl i (List.mem_cons_self i t))
        · exact hacc
  have hmem : ∀ i ∈ List.range' 1 (points.length - 1 - 1), 1 ≤ i ∧ i < points.length - 1 := by
    intro i hi
    have := List.mem_range'_1.mp hi
    omega
  rcases key (List.range' 1 (points.length - 1 - 1)) (0, 0) hmem (Or.inl rfl) with h0 | hr
  · rw [h0] at h; simp at h
  · exact hr

/-- `douglasPeucker(points, tolerance)`.  The source compares
`maxDist > tolerance` on square roots; since both sides are nonnegative at
the only call site (`tolerance = 1.0`), the embedding compares squares. -/
def douglasPeucker (points : List (ℚ × ℚ)) (tolerance : ℚ) : List (ℚ × ℚ) :=
  if points.length ≤ 2 then points
  else
    if h2 : tolerance ^ 2 < (dpScan points).1 then
      have hpos : 0 < (dpScan points).1 := lt_of_le_of_lt (sq_nonneg tolerance) h2
      have hidx := dpScan_of_pos points hpos
      (douglasPeucker (points.take ((dpScan points).2 + 1)) tolerance).dropLast ++
        douglasPeucker (points.drop (dpScan points).2) tolerance
    else
      [points.getD 0 (0, 0), points.getD (points.length - 1) (0, 0)]
termination_by points.length
decreasing_by
  · have hlen : points.length ≥ 3 := by omega
    have := hidx.2
    simp only [List.length_take]
    omega
  · have hlen : points.length ≥ 3 := by omega
    have := hidx.1
    simp only [List.length_drop]
    omega

/-- `detectColorPerimeter(imgElement)`: edge pixels in scan order, the
2-px pre-simplification, nearest-neighbour stitching, and Douglas-Peucker
with tolerance 1 when the path still exceeds 500 points. -/
def detectColorPerimeter (img : Image) : Option (List (ℚ × ℚ)) :=
  let edge := edgePixels img
  if edge.isEmpty then none
  else
    match simplifyClose (edge.map toQPoint) with
    | [] => none
    | c :: remaining =>
      let path := buildPath [c] c remaining
      some (if 500 < path.length then douglasPeucker path 1 else path)

/-- The ring-closing step of `drawZoneBorder`: append the first vertex when
it differs from the last. -/
def closeRing (latlngs : List (ℚ × ℚ)) : List (ℚ × ℚ) :=
  match latlngs with
  | [] => []
  | a :: rest =>
    if (a :: rest).getLast (List.cons_ne_nil a rest) ≠ a then (a :: rest) ++ [a]
    else a :: rest

/-- The perimeter pipeline: `detectColorPerimeter`, conversion of the pixel
path to geographic coordinates, and the ring closing of `drawZoneBorder`. -/
def extractPerimeterGeo (img : Image) (bounds : Bounds) : Option (List (ℚ × ℚ)) :=
  (detectColorPerimeter img).map fun path =>
    closeRing (pixelsToLatLng path (img.width : ℚ) (img.height : ℚ) bounds)

/-! ## Concrete fixtures used by scenario theorems, witnesses and
counterexamples -/

/-- Zone A of the stacking scenario: bounds `[[0,0],[10,10]]`. -/
def zoneA : Zone :=
  { id := 1, name := "A", bounds := { south := 0, west := 0, north := 10, east := 10 }
    image_path := "a.png", opacity := 1, rotation := 0 }

/-- Zone B of the stacking scenario: bounds `[[5,5],[15,15]]`, added after A. -/
def zoneB : Zone :=
  { id := 2, name := "B", bounds := { south := 5, west := 5, north := 15, east := 15 }
    image_path := "b.png", opacity := 1, rotation := 0 }

/-- Store of the stacking scenario: A then B, no overlays sampled. -/
def stackStore : ManagerState :=
  { zones := [zoneA, zoneB]
    overlays := fun _ => none
    contentBoundsCache := fun _ => none
    anchors := fun _ => none
    baseZoneSizes := fun _ => none
    currentScale := 100
    currentRotation := 0
    saveBtnPresent := true }

/-- A zone used by witness stores. -/
def zoneC : Zone :=
  { id := 3, name := "C", bounds := { south := 0, west := 0, north := 10, east := 10 }
    image_path := "c.png", opacity := 1, rotation := 0 }

/-- Witness store: a single zone, overlay not yet sampled. -/
def plainStore : ManagerState :=
  { zones := [zoneC]
    overlays := fun _ => none
    contentBoundsCache := fun _ => none
    anchors := fun _ => none
    baseZoneSizes := fun _ => none
    currentScale := 100
    currentRotation := 0
    saveBtnPresent := true }

/-- Overlay whose DOM element has not been created
(`overlay.getElement()` returns null). -/
def detachedOverlay : Overlay :=
  { hasElement := false, hasImg := false
    bounds := { south := 0, west := 0, north := 10, east := 10 }, rotationDeg := 0 }

/-- Store whose only zone has an overlay without a DOM element and no cached
content bounds. -/
def detachedStore : ManagerState :=
  { zones := [zoneC]
    overlays := fun j => if j = 3 then some detachedOverlay else none
    contentBoundsCache := fun _ => none
    anchors := fun _ => none
    baseZoneSizes := fun _ => none
    currentScale := 100
    currentRotation := 0
    saveBtnPresent := true }

/-- Overlay with a live DOM element and img child. -/
def liveOverlay : Overlay :=
  { hasElement := true, hasImg := true
    bounds := { south := 0, west := 0, north := 10, east := 10 }, rotationDeg := 0 }

/-- Store whose only zone has a live overlay and no cached content bounds. -/
def liveStore : ManagerState :=
  { zones := [zoneC]
    overlays := fun j => if j = 3 then some liveOverlay else none
    contentBoundsCache := fun _ => none
    anchors := fun _ => none
    baseZoneSizes := fun _ => none
    currentScale := 100
    currentRotation := 0
    saveBtnPresent := true }

/-- The 100×100 scenario raster: RGBA buffer whose alpha bytes are 255
exactly for the pixels of the square `(25,25)-(75,75)` and 0 elsewhere. -/
def squareImage : Image :=
  { width := 100
    height := 100
    data := fun i =>
      if i % 4 = 3 ∧ 25 ≤ i / 4 % 100 ∧ i / 4 % 100 ≤ 75 ∧
          25 ≤ i / 4 / 100 ∧ i / 4 / 100 ≤ 75 then 255
      else 0 }

/-- A 2×2 raster whose only colored pixel is `(0,0)`. -/
def dotImage : Image :=
  { width := 2, height := 2, data := fun i => if i = 3 then 255 else 0 }

/-- A 1×1 fully opaque raster. -/
def onePixelImage : Image :=
  { width := 1, height := 1, data := fun _ => 255 }

/-- Unit-square geographic bounds `[[0,0],[1,1]]`. -/
def unitBounds : Bounds := { south := 0, west := 0, north := 1, east := 1 }

/-- Middle stretch of the Douglas-Peucker counterexample path:
the 498 points `(503,0), (504,0), ..., (1000,0)`. -/
def cexTail : List (ℚ × ℚ) :=
  (List.range 498).map fun j => (((503 + j : ℕ) : ℚ), 0)

/-- A path of 501 collinear points (all on the line `y = 0`) on which
Douglas-Peucker with tolerance 1 does not reduce to 2 points: the second
point `(2000,0)` projects beyond the segment from `(0,0)` to `(500,0)`. -/
def cexPts : List (ℚ × ℚ) :=
  (0, 0) :: (2000, 0) :: (cexTail ++ [(500, 0)])

/-- The monotone collinear path `(0,0), (1,0), ..., (500,0)` of 501 points. -/
def colPts : List (ℚ × ℚ) :=
  (List.range 501).map fun (i : ℕ) => ((i : ℚ), (0 : ℚ))

/-- Witness state for the commit theorem: one zone with anchor `(2, 2)`,
base size `4 × 4`, live overlay, scale slider at 50%. -/
def commitStore : ManagerState :=
  { zones := [zoneC]
    overlays := fun j => if j = 3 then some liveOverlay else none
    contentBoundsCache := fun _ => none
    anchors := fun j => if j = 3 then some (2, 2) else none
    baseZoneSizes := fun j => if j = 3 then some { latSize := 4, lngSize := 4 } else none
    currentScale := 50
    currentRotation := 0
    saveBtnPresent := true }

end FloodZone

namespace FloodZone

/-! ## Helper lemmas -/

lemma applyScaleToZone_persisted (s : ManagerState) (zoneId : ℕ) (factor : ℚ) :
    (applyScaleToZone s zoneId factor).zones = s.zones ∧
    (applyScaleToZone s zoneId factor).baseZoneSizes = s.baseZoneSizes := by
  unfold applyScaleToZone
  split <;> exact ⟨rfl, rfl⟩

lemma applyRotationToZone_persisted (s : ManagerState) (zoneId : ℕ) (degrees : ℚ) :
    (applyRotationToZone s zoneId degrees).zones = s.zones ∧
    (applyRotationToZone s zoneId degrees).baseZoneSizes = s.baseZoneSizes := by
  unfold applyRotationToZone
  split
  · exact ⟨rfl, rfl⟩
  · split <;> exact ⟨rfl, rfl⟩

lemma applyPreviewOp_persisted (s : ManagerState) (op : PreviewOp) :
    (applyPreviewOp s op).zones = s.zones ∧
    (applyPreviewOp s op).baseZoneSizes = s.baseZoneSizes := by
  cases op with
  | scale zoneId factor => exact applyScaleToZone_persisted s zoneId factor
  | rotate zoneId degrees => exact applyRotationToZone_persisted s zoneId degrees

lemma find?_updateZoneLocal (zoneId : ℕ) (zoneData : Zone) :
    ∀ (zones : List Zone) (zone : Zone),
      zones.find? (fun z => z.id = zoneId) = some zone →
      (updateZoneLocal zoneId zoneData zones).find? (fun z => z.id = zoneId) =
        some { zoneData with id := zoneId } := by
  intro zones
  induction zones with
  | nil => intro zone h; simp [List.find?] at h
  | cons z rest ih =>
    intro zone h
    by_cases hz : z.id = zoneId
    · simp [updateZoneLocal, hz, List.find?]
    · have h' : rest.find? (fun z => z.id = zoneId) = some zone := by
        simpa [List.find?, hz] using h
      simp only [updateZoneLocal, if_neg hz]
      simpa [List.find?, hz] using ih zone h'

lemma getZoneAtPointAux_false_eq_find (s : ManagerState) (point : ℚ × ℚ) :
    ∀ l : List Zone,
      getZoneAtPointAux s point false l = l.find? (fun z => isPointInBounds point z.bounds) := by
  intro l
  induction l with
  | nil => rfl
  | cons z rest ih =>
    cases hz : isPointInBounds point z.bounds with
    | true => simp [getZoneAtPointAux, hz, List.find?]
    | false =>
      simp only [getZoneAtPointAux, hz, Bool.false_eq_true, if_false, List.find?]
      exact ih

lemma getZoneAtPointAux_true_inBounds (s : ManagerState) (point : ℚ × ℚ) :
    ∀ (l : List Zone) (z : Zone),
      getZoneAtPointAux s point true l = some z →
      ∃ z' ∈ l, isPointInBounds point z'.bounds = true := by
  intro l
  induction l with
  | nil => intro z h; simp [getZoneAtPointAux] at h
  | cons w rest ih =>
    intro z h
    cases hw : isPointInBounds point w.bounds with
    | true => exact ⟨w, List.mem_cons_self w rest, hw⟩
    | false =>
      simp only [getZoneAtPointAux, hw, Bool.false_eq_true, if_false] at h
      obtain ⟨z', hz', hb⟩ := ih z h
      exact ⟨z', List.mem_cons_of_mem _ hz', hb⟩

lemma getZoneAtPointAux_false_isSome (s : ManagerState) (point : ℚ × ℚ)
    (l : List Zone) (z : Zone) (hz : z ∈ l)
    (hb : isPointInBounds point z.bounds = true) :
    (getZoneAtPointAux s point false l).isSome := by
  rw [getZoneAtPointAux_false_eq_find, List.find?_isSome]
  exact ⟨z, hz, hb⟩

/-! ## Claim theorems -/

/-- **C2.** For every zone and every sequence of preview operations
(`applyScaleToZone` with any factor, `applyRotationToZone` with any
degrees) performed without an intervening commit, the persisted zone
records (hence every `zones[i].bounds`) and the cached base sizes
(`baseZoneSizes`) are unchanged; previews modify only the displayed
overlays. -/
theorem previews_never_mutate_persisted (s : ManagerState) (ops : List PreviewOp) :
    (applyPreviews s ops).zones = s.zones ∧
    (applyPreviews s ops).baseZoneSizes = s.baseZoneSizes := by
  induction ops generalizing s with
  | nil => exact ⟨rfl, rfl⟩
  | cons op rest ih =>
    have h1 := applyPreviewOp_persisted s op
    have h2 := ih (applyPreviewOp s op)
    exact ⟨h2.1.trans h1.1, h2.2.trans h1.2⟩

/-- **C3.** `getZoneAtPoint` with `checkPixels = false` scans the zones in
reverse display order and returns the first whose bounds contain the point,
so the most recently added (topmost) containing zone wins; in particular,
with zone A bounds `[[0,0],[10,10]]` and zone B bounds `[[5,5],[15,15]]`
added after A, the query for `(7,7)` with `checkPixels=false` returns B. -/
theorem getZoneAtPoint_reverse_topmost :
    (∀ (s : ManagerState) (lat lng : ℚ),
        getZoneAtPoint s lat lng false =
          s.zones.reverse.find? (fun z => isPointInBounds (lat, lng) z.bounds)) ∧
    getZoneAtPoint stackStore 7 7 false = some zoneB := by
  constructor
  · intro s lat lng
    exact getZoneAtPointAux_false_eq_find s (lat, lng) s.zones.reverse
  · rfl

/-- **C4.** Enabling `checkPixels` only removes positive matches: whenever
`getZoneAtPoint lat lng true` finds a zone, `getZoneAtPoint lat lng false`
also finds one; and with `checkPixels = false` every point inside a zone's
bounds returns that zone provided no higher-stacked (later-added) zone's
bounds also contain the point. -/
theorem getZoneAtPoint_checkPixels_monotone :
    (∀ (s : ManagerState) (lat lng : ℚ),
        (getZoneAtPoint s lat lng true).isSome →
        (getZoneAtPoint s lat lng false).isSome) ∧
    (∀ (s : ManagerState) (lat lng : ℚ) (pre post : List Zone) (z : Zone),
        s.zones = pre ++ z :: post →
        isPointInBounds (lat, lng) z.bounds = true →
        (∀ z' ∈ post, isPointInBounds (lat, lng) z'.bounds = false) →
        getZoneAtPoint s lat lng false = some z) := by
  constructor
  · intro s lat lng h
    rcases hsome : getZoneAtPoint s lat lng true with _ | z
    · rw [hsome] at h; simp at h
    · obtain ⟨z', hz', hb⟩ := getZoneAtPointAux_true_inBounds s (lat, lng) s.zones.reverse z hsome
      exact getZoneAtPointAux_false_isSome s (lat, lng) s.zones.reverse z' hz' hb
  · intro s lat lng pre post z hzones hz hpost
    unfold getZoneAtPoint
    rw [getZoneAtPointAux_false_eq_find, hzones]
    rw [List.reverse_append, List.reverse_cons, List.append_assoc, List.find?_append]
    have hnone : post.reverse.find? (fun w => isPointInBounds (lat, lng) w.bounds) = none := by
      rw [List.find?_eq_none]
      intro w hw
      simp [hpost w (List.mem_reverse.mp hw)]
    rw [hnone]
    simp [List.find?, hz]

/-- **C10 counterexample.** `isPointOverColoredPixels` does not return
`true` whenever content bounds are missing: when the overlay's DOM element
has not been created it returns `false`, and a pixel-accurate
`getZoneAtPoint` query then rejects a zone whose content bounds were never
computed even though the point lies inside its bounds. -/
theorem isPointOverColoredPixels_missing_cache_cex :
    isPointOverColoredPixels (5, 5) detachedOverlay none = false ∧
    isPointInBounds (5, 5) zoneC.bounds = true ∧
    detachedStore.contentBoundsCache 3 = none ∧
    getZoneAtPoint detachedStore 5 5 true = none := by
  exact ⟨rfl, rfl, rfl, rfl⟩

/-- **C10 (amended).** `isPointOverColoredPixels` returns `true` whenever
the overlay's DOM element and its img child are present and no content
bounds are cached for the zone; consequently, on a store in which every
sampled overlay has its element present and no cached content bounds, a
pixel-accurate query degrades to plain rectangle containment
(`checkPixels = true` and `checkPixels = false` agree).  (When the DOM
element is missing the source instead returns `false`.) -/
theorem isPointOverColoredPixels_missing_cache_defaults :
    (∀ (point : ℚ × ℚ) (overlay : Overlay),
        overlay.hasElement = true → overlay.hasImg = true →
        isPointOverColoredPixels point overlay none = true) ∧
    (∀ (s : ManagerState) (lat lng : ℚ),
        (∀ zoneId overlay, s.overlays zoneId = some overlay →
            overlay.hasElement = true ∧ overlay.hasImg = true ∧
            s.contentBoundsCache zoneId = none) →
        getZoneAtPoint s lat lng true = getZoneAtPoint s lat lng false) := by
  constructor
  · intro point overlay h1 h2
    simp [isPointOverColoredPixels, h1, h2]
  · intro s lat lng hov
    unfold getZoneAtPoint
    have key : ∀ l : List Zone,
        getZoneAtPointAux s (lat, lng) true l = getZoneAtPointAux s (lat, lng) false l := by
      intro l
      induction l with
      | nil => rfl
      | cons z rest ih =>
        cases hz : isPointInBounds (lat, lng) z.bounds with
        | true =>
          rcases ho : s.overlays z.id with _ | overlay
          · simp [getZoneAtPointAux, hz, ho]
          · obtain ⟨he, hi, hc⟩ := hov z.id overlay ho
            simp [getZoneAtPointAux, hz, ho, hc, isPointOverColoredPixels, he, hi]
        | false =>
          simp only [getZoneAtPointAux, hz, Bool.false_eq_true, if_false]
          exact ih
    exact key s.zones.reverse

/-- **C10 witness.** The amended theorem at a concrete overlay and store. -/
theorem isPointOverColoredPixels_missing_cache_defaults_witness :
    isPointOverColoredPixels (5, 5) liveOverlay none = true ∧
    getZoneAtPoint liveStore 5 5 true = getZoneAtPoint liveStore 5 5 false :=
  ⟨isPointOverColoredPixels_missing_cache_defaults.1 (5, 5) liveOverlay rfl rfl,
   isPointOverColoredPixels_missing_cache_defaults.2 liveStore 5 5 (by
      intro zoneId overlay h
      by_cases h3 : zoneId = 3
      · subst h3
        have h' : some liveOverlay = some overlay := h
        cases Option.some.inj h'
        exact ⟨rfl, rfl, rfl⟩
      · simp only [liveStore, if_neg h3] at h
        exact absurd h (by simp))⟩

/-- **C4 witness.** Both parts of the monotonicity theorem at a concrete
store and point. -/
theorem getZoneAtPoint_checkPixels_monotone_witness :
    (getZoneAtPoint plainStore 1 1 false).isSome ∧
    getZoneAtPoint plainStore 1 1 false = some zoneC :=
  ⟨getZoneAtPoint_checkPixels_monotone.1 plainStore 1 1 (by rfl),
   getZoneAtPoint_checkPixels_monotone.2 plainStore 1 1 [] [] zoneC rfl rfl
     (by intro z' hz'; simp at hz')⟩

/-- **C6.** The pixel-to-geographic conversion computes
`lng = west + (east-west) * (x/W)` and `lat = north - (north-south) * (y/H)`,
and for non-degenerate bounds and nonzero dimensions the geographic-to-pixel
inverse (the normalization of `isPointOverColoredPixels`, scaled by the
raster size) recovers every pixel exactly. -/
theorem pixelsToLatLng_roundtrip :
    (∀ (x y w h : ℚ) (b : Bounds),
        pixelsToLatLng [(x, y)] w h b =
          [(b.north - (b.north - b.south) * (y / h),
            b.west + (b.east - b.west) * (x / w))]) ∧
    (∀ (pixels : List (ℚ × ℚ)) (w h : ℚ) (b : Bounds),
        w ≠ 0 → h ≠ 0 → b.east - b.west ≠ 0 → b.north - b.south ≠ 0 →
        (pixelsToLatLng pixels w h b).map (fun p => geoToPixel p w h b) = pixels) := by
  constructor
  · intro x y w h b
    rfl
  · intro pixels w h b hw hh hew hns
    unfold pixelsToLatLng geoToPixel geoToNorm
    rw [List.map_map]
    have key : ∀ p : ℚ × ℚ,
        ((fun p : ℚ × ℚ =>
            ((p.2 - b.west) / (b.east - b.west) * w,
             (b.north - p.1) / (b.north - b.south) * h)) ∘
          fun p : ℚ × ℚ =>
            (b.north - (b.north - b.south) * (p.2 / h),
             b.west + (b.east - b.west) * (p.1 / w))) p = p := by
      intro p
      simp only [Function.comp_apply]
      rw [Prod.ext_iff]
      constructor
      · simp only []
        field_simp
        ring
      · simp only []
        field_simp
        ring
    have hcomp :
        ((fun p : ℚ × ℚ =>
            ((p.2 - b.west) / (b.east - b.west) * w,
             (b.north - p.1) / (b.north - b.south) * h)) ∘
          fun p : ℚ × ℚ =>
            (b.north - (b.north - b.south) * (p.2 / h),
             b.west + (b.east - b.west) * (p.1 / w))) = id := funext key
    rw [hcomp, List.map_id]

/-- **C6 witness.** The conversion theorem at a concrete pixel and bounds. -/
theorem pixelsToLatLng_roundtrip_witness :
    (pixelsToLatLng [((3 : ℚ), (4 : ℚ))] 10 10
        { south := 20, west := 30, north := 40, east := 50 }).map
      (fun p => geoToPixel p 10 10 { south := 20, west := 30, north := 40, east := 50 }) =
      [((3 : ℚ), (4 : ℚ))] :=
  pixelsToLatLng_roundtrip.2 [((3 : ℚ), (4 : ℚ))] 10 10
    { south := 20, west := 30, north := 40, east := 50 }
    (by norm_num) (by norm_num) (by norm_num) (by norm_num)

/-- **C1.** Committing a transform with live scale factor
`f = currentScale / 100` replaces the zone's persisted bounds with the
rectangle of size `base_size * f` centered on the anchor, replaces the
cached base size with `base_size * f`, resets the live scale to 100%, and a
subsequent `applyScaleToZone` at factor 1 (scale 100%) sets the displayed
bounds to exactly the committed bounds. -/
theorem saveZoneTransform_commit (s : ManagerState) (zoneId : ℕ) (zone : Zone)
    (overlay : Overlay) (center : ℚ × ℚ) (baseSize : BaseSize)
    (hfind : s.zones.find? (fun z => z.id = zoneId) = some zone)
    (hbtn : s.saveBtnPresent = true)
    (hanchor : s.anchors zoneId = some center)
    (hbase : s.baseZoneSizes zoneId = some baseSize)
    (hovl : s.overlays zoneId = some overlay) :
    ((saveZoneTransform s zoneId).zones.find? (fun z => z.id = zoneId)).map Zone.bounds =
      some { south := center.1 - baseSize.latSize * (s.currentScale / 100) / 2
             west := center.2 - baseSize.lngSize * (s.currentScale / 100) / 2
             north := center.1 + baseSize.latSize * (s.currentScale / 100) / 2
             east := center.2 + baseSize.lngSize * (s.currentScale / 100) / 2 } ∧
    (saveZoneTransform s zoneId).baseZoneSizes zoneId =
      some { latSize := baseSize.latSize * (s.currentScale / 100)
             lngSize := baseSize.lngSize * (s.currentScale / 100) } ∧
    (saveZoneTransform s zoneId).currentScale = 100 ∧
    ((applyScaleToZone (saveZoneTransform s zoneId) zoneId 1).overlays zoneId).map
        Overlay.bounds =
      some { south := center.1 - baseSize.latSize * (s.currentScale / 100) / 2
             west := center.2 - baseSize.lngSize * (s.currentScale / 100) / 2
             north := center.1 + baseSize.latSize * (s.currentScale / 100) / 2
             east := center.2 + baseSize.lngSize * (s.currentScale / 100) / 2 } := by
  have hsave : saveZoneTransform s zoneId =
      { s with
          zones := updateZoneLocal zoneId
            { id := zoneId
              name := zone.name
              image_path := zone.image_path
              bounds :=
                { south := center.1 - baseSize.latSize * (s.currentScale / 100) / 2
                  west := center.2 - baseSize.lngSize * (s.currentScale / 100) / 2
                  north := center.1 + baseSize.latSize * (s.currentScale / 100) / 2
                  east := center.2 + baseSize.lngSize * (s.currentScale / 100) / 2 }
              opacity := if zone.opacity = 0 then 0.6 else zone.opacity
              rotation := s.currentRotation } s.zones
          baseZoneSizes := updateMap s.baseZoneSizes zoneId
            (some { latSize := baseSize.latSize * (s.currentScale / 100)
                    lngSize := baseSize.lngSize * (s.currentScale / 100) })
          currentScale := 100 } := by
    unfold saveZoneTransform
    rw [hfind, hbtn, hanchor, hbase]
    rfl
  refine ⟨?_, ?_, ?_, ?_⟩
  · rw [hsave]
    rw [find?_updateZoneLocal zoneId _ s.zones zone hfind]
    rfl
  · rw [hsave]
    simp [updateMap]
  · rw [hsave]
  · have hbase1 : (saveZoneTransform s zoneId).baseZoneSizes zoneId =
        some { latSize := baseSize.latSize * (s.currentScale / 100)
               lngSize := baseSize.lngSize * (s.currentScale / 100) } := by
      rw [hsave]; simp [updateMap]
    have hovl1 : (saveZoneTransform s zoneId).overlays zoneId = some overlay := by
      rw [hsave]; exact hovl
    have hanchor1 : (saveZoneTransform s zoneId).anchors zoneId = some center := by
      rw [hsave]; exact hanchor
    unfold applyScaleToZone
    rw [hovl1, hanchor1, hbase1]
    simp only [updateMap, if_pos rfl, Option.map_some]
    show some
        ({ south := center.1 - baseSize.latSize * (s.currentScale / 100) * 1 / 2
           west := center.2 - baseSize.lngSize * (s.currentScale / 100) * 1 / 2
           north := center.1 + baseSize.latSize * (s.currentScale / 100) * 1 / 2
           east := center.2 + baseSize.lngSize * (s.currentScale / 100) * 1 / 2 } : Bounds) =
      some _
    congr 1
    congr 1 <;> ring

/-- **C1 witness.** The commit theorem at a concrete state: zone `3` with
base size `4 × 4`, anchor `(2,2)`, scale slider at 50%. -/
theorem saveZoneTransform_commit_witness :
    ((saveZoneTransform commitStore 3).zones.find? (fun z => z.id = 3)).map Zone.bounds =
      some { south := 2 - 4 * ((50 : ℚ) / 100) / 2, west := 2 - 4 * ((50 : ℚ) / 100) / 2
             north := 2 + 4 * ((50 : ℚ) / 100) / 2, east := 2 + 4 * ((50 : ℚ) / 100) / 2 } ∧
    (saveZoneTransform commitStore 3).baseZoneSizes 3 =
      some { latSize := 4 * ((50 : ℚ) / 100), lngSize := 4 * ((50 : ℚ) / 100) } ∧
    (saveZoneTransform commitStore 3).currentScale = 100 ∧
    ((applyScaleToZone (saveZoneTransform commitStore 3) 3 1).overlays 3).map Overlay.bounds =
      some { south := 2 - 4 * ((50 : ℚ) / 100) / 2, west := 2 - 4 * ((50 : ℚ) / 100) / 2
             north := 2 + 4 * ((50 : ℚ) / 100) / 2, east := 2 + 4 * ((50 : ℚ) / 100) / 2 } :=
  saveZoneTransform_commit commitStore 3 zoneC liveOverlay (2, 2)
    { latSize := 4, lngSize := 4 } rfl rfl rfl rfl rfl

/-! ## Content-bounds scan lemmas -/

lemma mem_pixelsInScanOrder {w h : ℕ} {p : ℕ × ℕ} :
    p ∈ pixelsInScanOrder w h ↔ p.1 < w ∧ p.2 < h := by
  cases p with
  | mk x y =>
    simp only [pixelsInScanOrder, List.mem_flatMap, List.mem_map, List.mem_range]
    constructor
    · rintro ⟨y', hy', x', hx', hxy⟩
      cases hxy
      exact ⟨hx', hy'⟩
    · rintro ⟨hx, hy⟩
      exact ⟨y, hy, x, hx, rfl⟩

lemma scan_found (img : Image) :
    ∀ (l : List (ℕ × ℕ)) (st : ScanState),
      ((l.foldl (scanPixel img) st).found = true ↔
        st.found = true ∨ ∃ p ∈ l, 10 ≤ alphaAt img p.1 p.2) := by
  intro l
  induction l with
  | nil => intro st; simp
  | cons p t ih =>
    intro st
    rw [List.foldl_cons]
    by_cases hc : 10 ≤ alphaAt img p.1 p.2
    · rw [ih]
      simp [scanPixel, hc]
    · rw [ih]
      have hsp : scanPixel img st p = st := by simp [scanPixel, hc]
      rw [hsp]
      constructor
      · rintro (h | ⟨q, hq, hcq⟩)
        · exact Or.inl h
        · exact Or.inr ⟨q, List.mem_cons_of_mem _ hq, hcq⟩
      · rintro (h | ⟨q, hq, hcq⟩)
        · exact Or.inl h
        · rcases List.mem_cons.mp hq with rfl | hq'
          · exact absurd hcq hc
          · exact Or.inr ⟨q, hq', hcq⟩

lemma scan_minX (img : Image) :
    ∀ (l : List (ℕ × ℕ)) (st : ScanState),
      (l.foldl (scanPixel img) st).minX ≤ st.minX ∧
      (∀ p ∈ l, 10 ≤ alphaAt img p.1 p.2 → (l.foldl (scanPixel img) st).minX ≤ p.1) ∧
      ((l.foldl (scanPixel img) st).minX = st.minX ∨
        ∃ p ∈ l, 10 ≤ alphaAt img p.1 p.2 ∧ (l.foldl (scanPixel img) st).minX = p.1) := by
  intro l
  induction l with
  | nil => intro st; exact ⟨le_refl _, by simp, Or.inl rfl⟩
  | cons p t ih =>
    intro st
    rw [List.foldl_cons]
    by_cases hc : 10 ≤ alphaAt img p.1 p.2
    · obtain ⟨h1, h2, h3⟩ := ih (scanPixel img st p)
      have hle : (scanPixel img st p).minX ≤ st.minX := by
        simp only [scanPixel, if_pos hc]
        split <;> omega
      have hlp : (scanPixel img st p).minX ≤ p.1 := by
        simp only [scanPixel, if_pos hc]
        split <;> omega
      have hcases : (scanPixel img st p).minX = p.1 ∨ (scanPixel img st p).minX = st.minX := by
        simp only [scanPixel, if_pos hc]
        split
        · exact Or.inl rfl
        · exact Or.inr rfl
      refine ⟨h1.trans hle, ?_, ?_⟩
      · intro q hq hcq
        rcases List.mem_cons.mp hq with rfl | hq'
        · exact h1.trans hlp
        · exact h2 q hq' hcq
      · rcases h3 with h3 | ⟨q, hq, hcq, hval⟩
        · rcases hcases with he | he
          · exact Or.inr ⟨p, List.mem_cons_self p t, hc, h3.trans he⟩
          · exact Or.inl (h3.trans he)
        · exact Or.inr ⟨q, List.mem_cons_of_mem _ hq, hcq, hval⟩
    · have hsp : scanPixel img st p = st := by simp [scanPixel, hc]
      rw [hsp]
      obtain ⟨h1, h2, h3⟩ := ih st
      refine ⟨h1, ?_, ?_⟩
      · intro q hq hcq
        rcases List.mem_cons.mp hq with rfl | hq'
        · exact absurd hcq hc
        · exact h2 q hq' hcq
      · rcases h3 with h3 | ⟨q, hq, hcq, hval⟩
        · exact Or.inl h3
        · exact Or.inr ⟨q, List.mem_cons_of_mem _ hq, hcq, hval⟩

lemma scan_minY (img : Image) :
    ∀ (l : List (ℕ × ℕ)) (st : ScanState),
      (l.foldl (scanPixel img) st).minY ≤ st.minY ∧
      (∀ p ∈ l, 10 ≤ alphaAt img p.1 p.2 → (l.foldl (scanPixel img) st).minY ≤ p.2) ∧
      ((l.foldl (scanPixel img) st).minY = st.minY ∨
        ∃ p ∈ l, 10 ≤ alphaAt img p.1 p.2 ∧ (l.foldl (scanPixel img) st).minY = p.2) := by
  intro l
  induction l with
  | nil => intro st; exact ⟨le_refl _, by simp, Or.inl rfl⟩
  | cons p t ih =>
    intro st
    rw [List.foldl_cons]
    by_cases hc : 10 ≤ alphaAt img p.1 p.2
    · obtain ⟨h1, h2, h3⟩ := ih (scanPixel img st p)
      have hle : (scanPixel img st p).minY ≤ st.minY := by
        simp only [scanPixel, if_pos hc]
        split <;> omega
      have hlp : (scanPixel img st p).minY ≤ p.2 := by
        simp only [scanPixel, if_pos hc]
        split <;> omega
      have hcases : (scanPixel img st p).minY = p.2 ∨ (scanPixel img st p).minY = st.minY := by
        simp only [scanPixel, if_pos hc]
        split
        · exact Or.inl rfl
        · exact Or.inr rfl
      refine ⟨h1.trans hle, ?_, ?_⟩
      · intro q hq hcq
        rcases List.mem_cons.mp hq with rfl | hq'
        · exact h1.trans hlp
        · exact h2 q hq' hcq
      · rcases h3 with h3 | ⟨q, hq, hcq, hval⟩
        · rcases hcases with he | he
          · exact Or.inr ⟨p, List.mem_cons_self p t, hc, h3.trans he⟩
          · exact Or.inl (h3.trans he)
        · exact Or.inr ⟨q, List.mem_cons_of_mem _ hq, hcq, hval⟩
    · have hsp : scanPixel img st p = st := by simp [scanPixel, hc]
      rw [hsp]
      obtain ⟨h1, h2, h3⟩ := ih st
      refine ⟨h1, ?_, ?_⟩
      · intro q hq hcq
        rcases List.mem_cons.mp hq with rfl | hq'
        · exact absurd hcq hc
        · exact h2 q hq' hcq
      · rcases h3 with h3 | ⟨q, hq, hcq, hval⟩
        · exact Or.inl h3
        · exact Or.inr ⟨q, List.mem_cons_of_mem _ hq, hcq, hval⟩

lemma scan_maxX (img : Image) :
    ∀ (l : List (ℕ × ℕ)) (st : ScanState),
      st.maxX ≤ (l.foldl (scanPixel img) st).maxX ∧
      (∀ p ∈ l, 10 ≤ alphaAt img p.1 p.2 → p.1 ≤ (l.foldl (scanPixel img) st).maxX) ∧
      ((l.foldl (scanPixel img) st).maxX = st.maxX ∨
        ∃ p ∈ l, 10 ≤ alphaAt img p.1 p.2 ∧ (l.foldl (scanPixel img) st).maxX = p.1) := by
  intro l
  induction l with
  | nil => intro st; exact ⟨le_refl _, by simp, Or.inl rfl⟩
  | cons p t ih =>
    intro st
    rw [List.foldl_cons]
    by_cases hc : 10 ≤ alphaAt img p.1 p.2
    · obtain ⟨h1, h2, h3⟩ := ih (scanPixel img st p)
      have hle : st.maxX ≤ (scanPixel img st p).maxX := by
        simp only [scanPixel, if_pos hc]
        split <;> omega
      have hlp : p.1 ≤ (scanPixel img st p).maxX := by
        simp only [scanPixel, if_pos hc]
        split <;> omega
      have hcases : (scanPixel img st p).maxX = p.1 ∨ (scanPixel img st p).maxX = st.maxX := by
        simp only [scanPixel, if_pos hc]
        split
        · exact Or.inl rfl
        · exact Or.inr rfl
      refine ⟨hle.trans h1, ?_, ?_⟩
      · intro q hq hcq
        rcases List.mem_cons.mp hq with rfl | hq'
        · exact hlp.trans h1
        · exact h2 q hq' hcq
      · rcases h3 with h3 | ⟨q, hq, hcq, hval⟩
        · rcases hcases with he | he
          · exact Or.inr ⟨p, List.mem_cons_self p t, hc, h3.trans he⟩
          · exact Or.inl (h3.trans he)
        · exact Or.inr ⟨q, List.mem_cons_of_mem _ hq, hcq, hval⟩
    · have hsp : scanPixel img st p = st := by simp [scanPixel, hc]
      rw [hsp]
      obtain ⟨h1, h2, h3⟩ := ih st
      refine ⟨h1, ?_, ?_⟩
      · intro q hq hcq
        rcases List.mem_cons.mp hq with rfl | hq'
        · exact absurd hcq hc
        · exact h2 q hq' hcq
      · rcases h3 with h3 | ⟨q, hq, hcq, hval⟩
        · exact Or.inl h3
        · exact Or.inr ⟨q, List.mem_cons_of_mem _ hq, hcq, hval⟩

lemma scan_maxY (img : Image) :
    ∀ (l : List (ℕ × ℕ)) (st : ScanState),
      st.maxY ≤ (l.foldl (scanPixel img) st).maxY ∧
      (∀ p ∈ l, 10 ≤ alphaAt img p.1 p.2 → p.2 ≤ (l.foldl (scanPixel img) st).maxY) ∧
      ((l.foldl (scanPixel img) st).maxY = st.maxY ∨
        ∃ p ∈ l, 10 ≤ alphaAt img p.1 p.2 ∧ (l.foldl (scanPixel img) st).maxY = p.2) := by
  intro l
  induction l with
  | nil => intro st; exact ⟨le_refl _, by simp, Or.inl rfl⟩
  | cons p t ih =>
    intro st
    rw [List.foldl_cons]
    by_cases hc : 10 ≤ alphaAt img p.1 p.2
    · obtain ⟨h1, h2, h3⟩ := ih (scanPixel img st p)
      have hle : st.maxY ≤ (scanPixel img st p).maxY := by
        simp only [scanPixel, if_pos hc]
        split <;> omega
      have hlp : p.2 ≤ (scanPixel img st p).maxY := by
        simp only [scanPixel, if_pos hc]
        split <;> omega
      have hcases : (scanPixel img st p).maxY = p.2 ∨ (scanPixel img st p).maxY = st.maxY := by
        simp only [scanPixel, if_pos hc]
        split
        · exact Or.inl rfl
        · exact Or.inr rfl
      refine ⟨hle.trans h1, ?_, ?_⟩
      · intro q hq hcq
        rcases List.mem_cons.mp hq with rfl | hq'
        · exact hlp.trans h1
        · exact h2 q hq' hcq
      · rcases h3 with h3 | ⟨q, hq, hcq, hval⟩
        · rcases hcases with he | he
          · exact Or.inr ⟨p, List.mem_cons_self p t, hc, h3.trans he⟩
          · exact Or.inl (h3.trans he)
        · exact Or.inr ⟨q, List.mem_cons_of_mem _ hq, hcq, hval⟩
    · have hsp : scanPixel img st p = st := by simp [scanPixel, hc]
      rw [hsp]
      obtain ⟨h1, h2, h3⟩ := ih st
      refine ⟨h1, ?_, ?_⟩
      · intro q hq hcq
        rcases List.mem_cons.mp hq with rfl | hq'
        · exact absurd hcq hc
        · exact h2 q hq' hcq
      · rcases h3 with h3 | ⟨q, hq, hcq, hval⟩
        · exact Or.inl h3
        · exact Or.inr ⟨q, List.mem_cons_of_mem _ hq, hcq, hval⟩

/-- Structure of a successful `detectImageContentBounds` run, at the level
of integer pixel coordinates: the result is built from attained minima and
maxima of the colored pixels. -/
lemma detectImageContentBounds_some_nat (img : Image) (r : ContentBounds)
    (h : detectImageContentBounds img = some r) :
    ∃ a b c d : ℕ,
      r = { minX := (a : ℚ) / img.width, minY := (b : ℚ) / img.height,
            maxX := ((c : ℚ) + 1) / img.width, maxY := ((d : ℚ) + 1) / img.height,
            imgWidth := img.width, imgHeight := img.height } ∧
      (∃ p : ℕ × ℕ, p.1 < img.width ∧ p.2 < img.height ∧ 10 ≤ alphaAt img p.1 p.2 ∧ p.1 = a) ∧
      (∃ p : ℕ × ℕ, p.1 < img.width ∧ p.2 < img.height ∧ 10 ≤ alphaAt img p.1 p.2 ∧ p.2 = b) ∧
      (∃ p : ℕ × ℕ, p.1 < img.width ∧ p.2 < img.height ∧ 10 ≤ alphaAt img p.1 p.2 ∧ p.1 = c) ∧
      (∃ p : ℕ × ℕ, p.1 < img.width ∧ p.2 < img.height ∧ 10 ≤ alphaAt img p.1 p.2 ∧ p.2 = d) ∧
      (∀ p : ℕ × ℕ, p.1 < img.width → p.2 < img.height → 10 ≤ alphaAt img p.1 p.2 →
          a ≤ p.1 ∧ p.1 ≤ c ∧ b ≤ p.2 ∧ p.2 ≤ d) := by
  unfold detectImageContentBounds at h
  set st := (pixelsInScanOrder img.width img.height).foldl (scanPixel img)
    { minX := img.width, minY := img.height, maxX := 0, maxY := 0, found := false } with hst
  by_cases hfound : st.found = true
  · rw [if_pos hfound] at h
    have hex : ∃ p ∈ pixelsInScanOrder img.width img.height, 10 ≤ alphaAt img p.1 p.2 := by
      have h2 := (scan_found img (pixelsInScanOrder img.width img.height)
        { minX := img.width, minY := img.height, maxX := 0, maxY := 0, found := false }).mp
        (by rw [← hst]; exact hfound)
      rcases h2 with hfly | hex
      · simp at hfly
      · exact hex
    obtain ⟨q, hq, hcq⟩ := hex
    obtain ⟨hqx, hqy⟩ := mem_pixelsInScanOrder.mp hq
    obtain ⟨hm1, hm2, hm3⟩ := scan_minX img (pixelsInScanOrder img.width img.height)
      { minX := img.width, minY := img.height, maxX := 0, maxY := 0, found := false }
    obtain ⟨hn1, hn2, hn3⟩ := scan_minY img (pixelsInScanOrder img.width img.height)
      { minX := img.width, minY := img.height, maxX := 0, maxY := 0, found := false }
    obtain ⟨hx1, hx2, hx3⟩ := scan_maxX img (pixelsInScanOrder img.width img.height)
      { minX := img.width, minY := img.height, maxX := 0, maxY := 0, found := false }
    obtain ⟨hy1, hy2, hy3⟩ := scan_maxY img (pixelsInScanOrder img.width img.height)
      { minX := img.width, minY := img.height, maxX := 0, maxY := 0, found := false }
    rw [← hst] at hm1 hm2 hm3 hn1 hn2 hn3 hx1 hx2 hx3 hy1 hy2 hy3
    refine ⟨st.minX, st.minY, st.maxX, st.maxY, ?_, ?_, ?_, ?_, ?_, ?_⟩
    · exact (Option.some.inj h).symm
    · rcases hm3 with he | ⟨p, hp, hcp, hval⟩
      · exfalso
        have := hm2 q hq hcq
        simp only [he] at this
        omega
      · obtain ⟨hpx, hpy⟩ := mem_pixelsInScanOrder.mp hp
        exact ⟨p, hpx, hpy, hcp, hval.symm⟩
    · rcases hn3 with he | ⟨p, hp, hcp, hval⟩
      · exfalso
        have := hn2 q hq hcq
        simp only [he] at this
        omega
      · obtain ⟨hpx, hpy⟩ := mem_pixelsInScanOrder.mp hp
        exact ⟨p, hpx, hpy, hcp, hval.symm⟩
    · rcases hx3 with he | ⟨p, hp, hcp, hval⟩
      · have he' : st.maxX = 0 := he
        have hq0 : q.1 = st.maxX := by
          have := hx2 q hq hcq
          omega
        exact ⟨q, hqx, hqy, hcq, hq0⟩
      · obtain ⟨hpx, hpy⟩ := mem_pixelsInScanOrder.mp hp
        exact ⟨p, hpx, hpy, hcp, hval.symm⟩
    · rcases hy3 with he | ⟨p, hp, hcp, hval⟩
      · have he' : st.maxY = 0 := he
        have hq0 : q.2 = st.maxY := by
          have := hy2 q hq hcq
          omega
        exact ⟨q, hqx, hqy, hcq, hq0⟩
      · obtain ⟨hpx, hpy⟩ := mem_pixelsInScanOrder.mp hp
        exact ⟨p, hpx, hpy, hcp, hval.symm⟩
    · intro p hpx hpy hcp
      have hp : p ∈ pixelsInScanOrder img.width img.height :=
        mem_pixelsInScanOrder.mpr ⟨hpx, hpy⟩
      exact ⟨hm2 p hp hcp, hx2 p hp hcp, hn2 p hp hcp, hy2 p hp hcp⟩
  · rw [if_neg hfound] at h
    exact absurd h (by simp)

lemma detectImageContentBounds_isSome_of_found (img : Image)
    (h : ((pixelsInScanOrder img.width img.height).foldl (scanPixel img)
        { minX := img.width, minY := img.height, maxX := 0, maxY := 0,
          found := false }).found = true) :
    ∃ r, detectImageContentBounds img = some r := by
  unfold detectImageContentBounds
  simp only [h, if_true]
  exact ⟨_, rfl⟩

lemma squareImage_alpha (x y : ℕ) (hx : x < 100) (hy : y < 100) :
    alphaAt squareImage x y = if 25 ≤ x ∧ x ≤ 75 ∧ 25 ≤ y ∧ y ≤ 75 then 255 else 0 := by
  unfold alphaAt squareImage
  simp only []
  have h1 : ((y * 100 + x) * 4 + 3) % 4 = 3 := by omega
  have h2 : ((y * 100 + x) * 4 + 3) / 4 = y * 100 + x := by omega
  have h3 : (y * 100 + x) % 100 = x := by omega
  have h4 : (y * 100 + x) / 100 = y := by omega
  rw [h1, h2, h3, h4]
  simp

lemma squareImage_colored_iff (x y : ℕ) (hx : x < 100) (hy : y < 100) :
    10 ≤ alphaAt squareImage x y ↔ (25 ≤ x ∧ x ≤ 75 ∧ 25 ≤ y ∧ y ≤ 75) := by
  rw [squareImage_alpha x y hx hy]
  by_cases hc : 25 ≤ x ∧ x ≤ 75 ∧ 25 ≤ y ∧ y ≤ 75
  · rw [if_pos hc]
    exact iff_of_true (by norm_num) hc
  · rw [if_neg hc]
    exact iff_of_false (by norm_num) hc

/-- **C5.** `detectImageContentBounds` treats a pixel as colored iff its
alpha is at least 10; it returns `none` exactly when no pixel reaches the
threshold; otherwise it returns the tight normalized bounding rectangle of
the colored pixels (each side attained by a colored pixel, and enclosing
every colored pixel); and on the 100×100 raster whose colored pixels are
exactly the square `(25,25)-(75,75)` it returns
`{minX: .25, minY: .25, maxX: .75, maxY: .75}` within the 1/100 pixel
quantization tolerance. -/
theorem detectImageContentBounds_spec :
    (∀ img : Image, detectImageContentBounds img = none ↔
        ∀ x y : ℕ, x < img.width → y < img.height → alphaAt img x y < 10) ∧
    (∀ (img : Image) (r : ContentBounds), detectImageContentBounds img = some r →
        (∃ p : ℕ × ℕ, p.1 < img.width ∧ p.2 < img.height ∧ 10 ≤ alphaAt img p.1 p.2 ∧
            r.minX = (p.1 : ℚ) / img.width) ∧
        (∃ p : ℕ × ℕ, p.1 < img.width ∧ p.2 < img.height ∧ 10 ≤ alphaAt img p.1 p.2 ∧
            r.minY = (p.2 : ℚ) / img.height) ∧
        (∃ p : ℕ × ℕ, p.1 < img.width ∧ p.2 < img.height ∧ 10 ≤ alphaAt img p.1 p.2 ∧
            r.maxX = ((p.1 : ℚ) + 1) / img.width) ∧
        (∃ p : ℕ × ℕ, p.1 < img.width ∧ p.2 < img.height ∧ 10 ≤ alphaAt img p.1 p.2 ∧
            r.maxY = ((p.2 : ℚ) + 1) / img.height) ∧
        (∀ p : ℕ × ℕ, p.1 < img.width → p.2 < img.height → 10 ≤ alphaAt img p.1 p.2 →
            r.minX ≤ (p.1 : ℚ) / img.width ∧ ((p.1 : ℚ) + 1) / img.width ≤ r.maxX ∧
            r.minY ≤ (p.2 : ℚ) / img.height ∧ ((p.2 : ℚ) + 1) / img.height ≤ r.maxY)) ∧
    (∃ r : ContentBounds, detectImageContentBounds squareImage = some r ∧
        |r.minX - 25/100| ≤ 1/100 ∧ |r.minY - 25/100| ≤ 1/100 ∧
        |r.maxX - 75/100| ≤ 1/100 ∧ |r.maxY - 75/100| ≤ 1/100) := by
  have partA : ∀ img : Image, detectImageContentBounds img = none ↔
      ∀ x y : ℕ, x < img.width → y < img.height → alphaAt img x y < 10 := by
    intro img
    unfold detectImageContentBounds
    by_cases hfound : ((pixelsInScanOrder img.width img.height).foldl (scanPixel img)
        { minX := img.width, minY := img.height, maxX := 0, maxY := 0,
          found := false }).found = true
    · simp only [hfound, if_true]
      constructor
      · intro h; exact absurd h (by simp)
      · intro hall
        exfalso
        have h2 := (scan_found img (pixelsInScanOrder img.width img.height)
          { minX := img.width, minY := img.height, maxX := 0, maxY := 0,
            found := false }).mp hfound
        rcases h2 with hfly | ⟨q, hq, hcq⟩
        · simp at hfly
        · obtain ⟨hqx, hqy⟩ := mem_pixelsInScanOrder.mp hq
          have := hall q.1 q.2 hqx hqy
          omega
    · simp only [hfound, if_false]
      constructor
      · intro _ x y hx hy
        by_contra hge
        push_neg at hge
        exact hfound ((scan_found img (pixelsInScanOrder img.width img.height)
          { minX := img.width, minY := img.height, maxX := 0, maxY := 0,
            found := false }).mpr
          (Or.inr ⟨(x, y), mem_pixelsInScanOrder.mpr ⟨hx, hy⟩, hge⟩))
      · intro _; rfl
  have partB : ∀ (img : Image) (r : ContentBounds), detectImageContentBounds img = some r →
      (∃ p : ℕ × ℕ, p.1 < img.width ∧ p.2 < img.height ∧ 10 ≤ alphaAt img p.1 p.2 ∧
          r.minX = (p.1 : ℚ) / img.width) ∧
      (∃ p : ℕ × ℕ, p.1 < img.width ∧ p.2 < img.height ∧ 10 ≤ alphaAt img p.1 p.2 ∧
          r.minY = (p.2 : ℚ) / img.height) ∧
      (∃ p : ℕ × ℕ, p.1 < img.width ∧ p.2 < img.height ∧ 10 ≤ alphaAt img p.1 p.2 ∧
          r.maxX = ((p.1 : ℚ) + 1) / img.width) ∧
      (∃ p : ℕ × ℕ, p.1 < img.width ∧ p.2 < img.height ∧ 10 ≤ alphaAt img p.1 p.2 ∧
          r.maxY = ((p.2 : ℚ) + 1) / img.height) ∧
      (∀ p : ℕ × ℕ, p.1 < img.width → p.2 < img.height → 10 ≤ alphaAt img p.1 p.2 →
          r.minX ≤ (p.1 : ℚ) / img.width ∧ ((p.1 : ℚ) + 1) / img.width ≤ r.maxX ∧
          r.minY ≤ (p.2 : ℚ) / img.height ∧ ((p.2 : ℚ) + 1) / img.height ≤ r.maxY) := by
    intro img r h
    obtain ⟨a, b, c, d, hr, ⟨pa, hpa1, hpa2, hpa3, hpa4⟩, ⟨pb, hpb1, hpb2, hpb3, hpb4⟩,
      ⟨pc, hpc1, hpc2, hpc3, hpc4⟩, ⟨pd, hpd1, hpd2, hpd3, hpd4⟩, hall⟩ :=
      detectImageContentBounds_some_nat img r h
    subst hr
    have hW : (0 : ℚ) < (img.width : ℚ) := by
      exact_mod_cast Nat.pos_of_ne_zero (by omega)
    have hH : (0 : ℚ) < (img.height : ℚ) := by
      exact_mod_cast Nat.pos_of_ne_zero (by omega)
    refine ⟨⟨pa, hpa1, hpa2, hpa3, by rw [hpa4]⟩, ⟨pb, hpb1, hpb2, hpb3, by rw [hpb4]⟩,
      ⟨pc, hpc1, hpc2, hpc3, by rw [hpc4]⟩, ⟨pd, hpd1, hpd2, hpd3, by rw [hpd4]⟩, ?_⟩
    intro p hp1 hp2 hp3
    obtain ⟨h1, h2, h3, h4⟩ := hall p hp1 hp2 hp3
    refine ⟨?_, ?_, ?_, ?_⟩
    · apply div_le_div_of_nonneg_right ?_ hW.le
      exact_mod_cast h1
    · apply div_le_div_of_nonneg_right ?_ hW.le
      have : p.1 + 1 ≤ c + 1 := by omega
      exact_mod_cast this
    · apply div_le_div_of_nonneg_right ?_ hH.le
      exact_mod_cast h3
    · apply div_le_div_of_nonneg_right ?_ hH.le
      have : p.2 + 1 ≤ d + 1 := by omega
      exact_mod_cast this
  refine ⟨partA, partB, ?_⟩
  have sq25 : (10 : ℕ) ≤ alphaAt squareImage 25 25 := by
    rw [(squareImage_colored_iff 25 25 (by norm_num) (by norm_num))]
    norm_num
  have sq75 : (10 : ℕ) ≤ alphaAt squareImage 75 75 := by
    rw [(squareImage_colored_iff 75 75 (by norm_num) (by norm_num))]
    norm_num
  have hfound : ((pixelsInScanOrder squareImage.width squareImage.height).foldl
      (scanPixel squareImage)
      { minX := squareImage.width, minY := squareImage.height, maxX := 0, maxY := 0,
        found := false }).found = true := by
    apply (scan_found squareImage _ _).mpr
    exact Or.inr ⟨(25, 25), mem_pixelsInScanOrder.mpr ⟨by norm_num [squareImage],
      by norm_num [squareImage]⟩, sq25⟩
  obtain ⟨r, hr⟩ := detectImageContentBounds_isSome_of_found squareImage hfound
  obtain ⟨⟨pa, hpa1, hpa2, hpa3, hpa4⟩, ⟨pb, hpb1, hpb2, hpb3, hpb4⟩,
    ⟨pc, hpc1, hpc2, hpc3, hpc4⟩, ⟨pd, hpd1, hpd2, hpd3, hpd4⟩, hall⟩ :=
    partB squareImage r hr
  have hbound25 := hall (25, 25) (by norm_num [squareImage]) (by norm_num [squareImage]) sq25
  have hbound75 := hall (75, 75) (by norm_num [squareImage]) (by norm_num [squareImage]) sq75
  have hpaB := (squareImage_colored_iff pa.1 pa.2 hpa1 hpa2).mp hpa3
  have hpbB := (squareImage_colored_iff pb.1 pb.2 hpb1 hpb2).mp hpb3
  have hpcB := (squareImage_colored_iff pc.1 pc.2 hpc1 hpc2).mp hpc3
  have hpdB := (squareImage_colored_iff pd.1 pd.2 hpd1 hpd2).mp hpd3
  have e1 : r.minX = 25 / 100 := by
    apply le_antisymm
    · simpa [squareImage] using hbound25.1
    · rw [hpa4]
      apply div_le_div_of_nonneg_right ?_ (by norm_num [squareImage])
      exact_mod_cast hpaB.1
  have e2 : r.minY = 25 / 100 := by
    apply le_antisymm
    · simpa [squareImage] using hbound25.2.2.1
    · rw [hpb4]
      apply div_le_div_of_nonneg_right ?_ (by norm_num [squareImage])
      exact_mod_cast hpbB.2.2.1
  have e3 : r.maxX = 76 / 100 := by
    apply le_antisymm
    · rw [hpc4]
      apply div_le_div_of_nonneg_right ?_ (by norm_num [squareImage])
      have : (pc.1 : ℚ) ≤ 75 := by exact_mod_cast hpcB.2.1
      linarith
    · have h := hbound75.2.1
      norm_num [squareImage] at h ⊢
      exact h
  have e4 : r.maxY = 76 / 100 := by
    apply le_antisymm
    · rw [hpd4]
      apply div_le_div_of_nonneg_right ?_ (by norm_num [squareImage])
      have : (pd.2 : ℚ) ≤ 75 := by exact_mod_cast hpdB.2.2.2
      linarith
    · have h := hbound75.2.2.2
      norm_num [squareImage] at h ⊢
      exact h
  refine ⟨r, hr, ?_, ?_, ?_, ?_⟩
  · rw [e1]; norm_num
  · rw [e2]; norm_num
  · rw [e3]; norm_num [abs_le]
  · rw [e4]; norm_num [abs_le]

/-- **C5 witness.** The characterization theorem applied to the 2×2 raster
whose only colored pixel is `(0,0)`. -/
theorem detectImageContentBounds_spec_witness :
    ∃ r : ContentBounds, detectImageContentBounds dotImage = some r ∧
      (∃ p : ℕ × ℕ, p.1 < 2 ∧ p.2 < 2 ∧ 10 ≤ alphaAt dotImage p.1 p.2 ∧
        r.minX = (p.1 : ℚ) / 2) := by
  obtain ⟨r, hr⟩ := detectImageContentBounds_isSome_of_found dotImage (by decide)
  obtain ⟨hmin, _⟩ := detectImageContentBounds_spec.2.1 dotImage r hr
  exact ⟨r, hr, hmin⟩

/-- **C9.** Whenever `detectImageContentBounds` returns a non-null result,
it satisfies `0 ≤ minX < maxX ≤ 1` and `0 ≤ minY < maxY ≤ 1` (the `+1` on
the extreme colored pixel makes even a single colored pixel yield a
non-degenerate rectangle), and the downstream
`adjustOverlayBoundsToContent` therefore never turns non-degenerate bounds
into a zero-area rectangle. -/
theorem detectImageContentBounds_nondegenerate :
    ∀ (img : Image) (r : ContentBounds), detectImageContentBounds img = some r →
      (0 ≤ r.minX ∧ r.minX < r.maxX ∧ r.maxX ≤ 1 ∧
       0 ≤ r.minY ∧ r.minY < r.maxY ∧ r.maxY ≤ 1) ∧
      (∀ b : Bounds, b.south < b.north → b.west < b.east →
        (adjustOverlayBoundsToContent (some r) b).south <
          (adjustOverlayBoundsToContent (some r) b).north ∧
        (adjustOverlayBoundsToContent (some r) b).west <
          (adjustOverlayBoundsToContent (some r) b).east) := by
  intro img r h
  obtain ⟨a, b, c, d, hr, ⟨pa, hpa1, hpa2, hpa3, hpa4⟩, ⟨pb, hpb1, hpb2, hpb3, hpb4⟩,
    ⟨pc, hpc1, hpc2, hpc3, hpc4⟩, ⟨pd, hpd1, hpd2, hpd3, hpd4⟩, hall⟩ :=
    detectImageContentBounds_some_nat img r h
  have hac : a ≤ c := by
    have := hall pc hpc1 hpc2 hpc3
    omega
  have hbd : b ≤ d := by
    have := hall pd hpd1 hpd2 hpd3
    omega
  have hcW : c < img.width := by omega
  have hdH : d < img.height := by omega
  have hW : (0 : ℚ) < (img.width : ℚ) := by
    exact_mod_cast Nat.pos_of_ne_zero (by omega)
  have hH : (0 : ℚ) < (img.height : ℚ) := by
    exact_mod_cast Nat.pos_of_ne_zero (by omega)
  have hfields : r.minX = (a : ℚ) / img.width ∧ r.minY = (b : ℚ) / img.height ∧
      r.maxX = ((c : ℚ) + 1) / img.width ∧ r.maxY = ((d : ℚ) + 1) / img.height := by
    rw [hr]
    exact ⟨rfl, rfl, rfl, rfl⟩
  obtain ⟨f1, f2, f3, f4⟩ := hfields
  have core : 0 ≤ r.minX ∧ r.minX < r.maxX ∧ r.maxX ≤ 1 ∧
      0 ≤ r.minY ∧ r.minY < r.maxY ∧ r.maxY ≤ 1 := by
    refine ⟨?_, ?_, ?_, ?_, ?_, ?_⟩
    · rw [f1]
      positivity
    · rw [f1, f3]
      rw [div_lt_div_iff hW hW]
      have : (a : ℚ) ≤ (c : ℚ) := by exact_mod_cast hac
      nlinarith
    · rw [f3]
      rw [div_le_one hW]
      have : (c : ℚ) + 1 ≤ (img.width : ℚ) := by exact_mod_cast hcW
      exact this
    · rw [f2]
      positivity
    · rw [f2, f4]
      rw [div_lt_div_iff hH hH]
      have : (b : ℚ) ≤ (d : ℚ) := by exact_mod_cast hbd
      nlinarith
    · rw [f4]
      rw [div_le_one hH]
      have : (d : ℚ) + 1 ≤ (img.height : ℚ) := by exact_mod_cast hdH
      exact this
  refine ⟨core, ?_⟩
  intro bd hns hwe
  obtain ⟨g1, g2, g3, g4, g5, g6⟩ := core
  have hadjeq : adjustOverlayBoundsToContent (some r) bd =
      { south := bd.north - (bd.north - bd.south) * r.maxY
        west := bd.west + (bd.east - bd.west) * r.minX
        north := bd.north - (bd.north - bd.south) * r.minY
        east := bd.west + (bd.east - bd.west) * r.maxX } := rfl
  rw [hadjeq]
  constructor
  · have := mul_lt_mul_of_pos_left g5 (by linarith : (0 : ℚ) < bd.north - bd.south)
    simp only []
    linarith
  · have := mul_lt_mul_of_pos_left g2 (by linarith : (0 : ℚ) < bd.east - bd.west)
    simp only []
    linarith

/-! ## Perimeter pipeline lemmas -/

lemma buildPath_ne_nil :
    ∀ (path : List (ℚ × ℚ)) (current : ℚ × ℚ) (remaining : List (ℚ × ℚ)),
      path ≠ [] → buildPath path current remaining ≠ [] := by
  intro path current remaining
  induction path, current, remaining using buildPath.induct with
  | case1 path current =>
    intro h
    simpa [buildPath] using h
  | case2 path current r rest scan hc ih =>
    intro _
    rw [buildPath]
    simp only [hc, if_true]
    exact ih (by simp)
  | case3 path current r rest scan hc c ih =>
    intro _
    rw [buildPath]
    simp only [hc, if_false]
    exact ih (by simp)

lemma douglasPeucker_ne_nil :
    ∀ (points : List (ℚ × ℚ)) (tolerance : ℚ),
      points ≠ [] → douglasPeucker points tolerance ≠ [] := by
  intro points tolerance
  induction points, tolerance using douglasPeucker.induct with
  | case1 points tolerance hle =>
    intro h
    rw [douglasPeucker]
    simp only [hle, if_true]
    exact h
  | case2 points tolerance hle h2 hpos hidx ih1 ih2 =>
    intro _
    rw [douglasPeucker]
    simp only [hle, if_false, dif_pos h2]
    intro hcontra
    rcases List.append_eq_nil.mp hcontra with ⟨_, hr⟩
    have hdropne : points.drop (dpScan points).2 ≠ [] := by
      have hlen : points.length ≥ 3 := by
        rcases Nat.lt_or_ge points.length 3 with h3 | h3
        · exact absurd (by omega) hle
        · exact h3
      have := hidx.2
      simp only [ne_eq, List.drop_eq_nil_iff]
      omega
    exact ih2 hdropne hr
  | case3 points tolerance hle h2 =>
    intro _
    rw [douglasPeucker]
    simp only [hle, if_false, dif_neg h2]
    simp

lemma detectColorPerimeter_ne_nil (img : Image) (l : List (ℚ × ℚ))
    (h : detectColorPerimeter img = some l) : l ≠ [] := by
  unfold detectColorPerimeter at h
  by_cases he : (edgePixels img).isEmpty
  · rw [if_pos he] at h
    exact absurd h (by simp)
  · rw [if_neg he] at h
    rcases hs : simplifyClose ((edgePixels img).map toQPoint) with _ | ⟨c, remaining⟩
    · rw [hs] at h
      exact absurd h (by simp)
    · rw [hs] at h
      have hpath : buildPath [c] c remaining ≠ [] :=
        buildPath_ne_nil [c] c remaining (by simp)
      have hl : l = if 500 < (buildPath [c] c remaining).length then
          douglasPeucker (buildPath [c] c remaining) 1
        else buildPath [c] c remaining := (Option.some.inj h).symm
      rw [hl]
      split
      · exact douglasPeucker_ne_nil _ 1 hpath
      · exact hpath

lemma closeRing_ne_nil (l : List (ℚ × ℚ)) (h : l ≠ []) : closeRing l ≠ [] := by
  cases l with
  | nil => exact absurd rfl h
  | cons a rest =>
    show (if (a :: rest).getLast (List.cons_ne_nil a rest) ≠ a then (a :: rest) ++ [a]
      else a :: rest) ≠ []
    split <;> simp

lemma closeRing_closed (l : List (ℚ × ℚ)) (h : l ≠ []) :
    (closeRing l).head? = (closeRing l).getLast? := by
  cases l with
  | nil => exact absurd rfl h
  | cons a rest =>
    show (if (a :: rest).getLast (List.cons_ne_nil a rest) ≠ a then (a :: rest) ++ [a]
        else a :: rest).head? =
      (if (a :: rest).getLast (List.cons_ne_nil a rest) ≠ a then (a :: rest) ++ [a]
        else a :: rest).getLast?
    by_cases hc : (a :: rest).getLast (List.cons_ne_nil a rest) ≠ a
    · rw [if_pos hc]
      rw [List.getLast?_concat]
      simp
    · rw [if_neg hc]
      push_neg at hc
      rw [List.getLast?_eq_getLast (a :: rest) (List.cons_ne_nil a rest), hc]
      simp

/-! ## Douglas-Peucker lemmas -/

lemma ptldSq_horizontal (x a b : ℚ) (hab : b - a ≠ 0) :
    pointToLineDistanceSq (x, 0) (a, 0) (b, 0) =
      (if (x - a) / (b - a) < 0 then (x - a) ^ 2
       else if (x - a) / (b - a) > 1 then (x - b) ^ 2
       else 0) := by
  unfold pointToLineDistanceSq
  simp only [sub_zero]
  have hlen : (b - a) * (b - a) + 0 * 0 ≠ 0 := by
    simpa using mul_ne_zero hab hab
  rw [if_pos hlen]
  have hparam : ((x - a) * (b - a) + 0 * 0) / ((b - a) * (b - a) + 0 * 0) =
      (x - a) / (b - a) := by
    rw [mul_zero, add_zero, add_zero, mul_div_mul_right _ _ hab]
  rw [hparam]
  by_cases h0 : (x - a) / (b - a) < 0
  · rw [if_pos h0, if_pos h0, if_pos h0]
    ring
  · rw [if_neg h0, if_neg h0, if_neg h0]
    by_cases h1 : (x - a) / (b - a) > 1
    · rw [if_pos h1, if_pos h1, if_pos h1]
      ring
    · rw [if_neg h1, if_neg h1, if_neg h1]
      rw [div_mul_cancel₀ _ hab]
      ring

lemma ptldSq_horizontal_on (x a b : ℚ) (hab : b - a ≠ 0)
    (h0 : 0 ≤ (x - a) / (b - a)) (h1 : (x - a) / (b - a) ≤ 1) :
    pointToLineDistanceSq (x, 0) (a, 0) (b, 0) = 0 := by
  rw [ptldSq_horizontal x a b hab, if_neg (not_lt.mpr h0), if_neg (not_lt.mpr h1)]

lemma ptldSq_horizontal_beyond (x a b : ℚ) (hab : b - a ≠ 0)
    (h1 : 1 < (x - a) / (b - a)) :
    pointToLineDistanceSq (x, 0) (a, 0) (b, 0) = (x - b) ^ 2 := by
  rw [ptldSq_horizontal x a b hab]
  have h0 : ¬((x - a) / (b - a) < 0) := by
    push_neg
    linarith
  rw [if_neg h0, if_pos h1]

lemma dpFold_le (g : ℕ → ℚ × ℚ) (p0 pn : ℚ × ℚ) :
    ∀ (l : List ℕ) (acc : ℚ × ℕ),
      (∀ i ∈ l, pointToLineDistanceSq (g i) p0 pn ≤ acc.1) →
      l.foldl (fun acc i =>
        let d := pointToLineDistanceSq (g i) p0 pn
        if d > acc.1 then (d, i) else acc) acc = acc := by
  intro l
  induction l with
  | nil => intro acc _; rfl
  | cons i t ih =>
    intro acc h
    rw [List.foldl_cons]
    have hstep : (let d := pointToLineDistanceSq (g i) p0 pn
        if d > acc.1 then (d, i) else acc) = acc := by
      simp only []
      rw [if_neg (not_lt.mpr (h i (List.mem_cons_self i t)))]
    rw [hstep]
    exact ih acc (fun j hj => h j (List.mem_cons_of_mem _ hj))

lemma dpScan_eq_zero (points : List (ℚ × ℚ))
    (h : ∀ i ∈ List.range' 1 (points.length - 1 - 1),
        pointToLineDistanceSq (points.getD i (0, 0)) (points.getD 0 (0, 0))
          (points.getD (points.length - 1) (0, 0)) = 0) :
    dpScan points = (0, 0) := by
  unfold dpScan
  exact dpFold_le (fun i => points.getD i (0, 0)) (points.getD 0 (0, 0))
    (points.getD (points.length - 1) (0, 0)) _ (0, 0)
    (fun i hi => le_of_eq (h i hi))

lemma douglasPeucker_step (points : List (ℚ × ℚ)) (tolerance : ℚ)
    (h1 : ¬(points.length ≤ 2)) (h2 : tolerance ^ 2 < (dpScan points).1) :
    douglasPeucker points tolerance =
      (douglasPeucker (points.take ((dpScan points).2 + 1)) tolerance).dropLast ++
        douglasPeucker (points.drop (dpScan points).2) tolerance := by
  rw [douglasPeucker]
  rw [if_neg h1, dif_pos h2]

lemma dpFold_first (g : ℕ → ℚ × ℚ) (p0 pn : ℚ × ℚ) (i0 : ℕ) (t : List ℕ)
    (h0 : 0 < pointToLineDistanceSq (g i0) p0 pn)
    (ht : ∀ i ∈ t,
      pointToLineDistanceSq (g i) p0 pn ≤ pointToLineDistanceSq (g i0) p0 pn) :
    (i0 :: t).foldl (fun acc i =>
      let d := pointToLineDistanceSq (g i) p0 pn
      if d > acc.1 then (d, i) else acc) (0, 0) =
      (pointToLineDistanceSq (g i0) p0 pn, i0) := by
  rw [List.foldl_cons]
  have hstep : (let d := pointToLineDistanceSq (g i0) p0 pn
      if d > ((0 : ℚ), (0 : ℕ)).1 then (d, i0) else ((0 : ℚ), (0 : ℕ))) =
      (pointToLineDistanceSq (g i0) p0 pn, i0) := by
    simp only []
    rw [if_pos h0]
  rw [hstep]
  exact dpFold_le g p0 pn t _ (fun i hi => ht i hi)

lemma cexPts_length : cexPts.length = 501 := by
  simp [cexPts, cexTail]

lemma cexPts_getD_zero : cexPts.getD 0 (0, 0) = (0, 0) := rfl

lemma cexPts_getD_one : cexPts.getD 1 (0, 0) = (2000, 0) := rfl

lemma cexTail_length : cexTail.length = 498 := by
  simp [cexTail]

lemma cexTail_getD (j : ℕ) (hj : j < 498) :
    cexTail.getD j (0, 0) = (((503 + j : ℕ) : ℚ), 0) := by
  unfold cexTail
  rw [List.getD_eq_getElem?_getD, List.getElem?_map, List.getElem?_range hj]
  rfl

lemma cexPts_getD_mid (j : ℕ) (hj : j < 498) :
    cexPts.getD (j + 2) (0, 0) = (((503 + j : ℕ) : ℚ), 0) := by
  show ((0, 0) :: (2000, 0) :: (cexTail ++ [(500, 0)]) : List (ℚ × ℚ)).getD (j + 1 + 1)
      (0, 0) = _
  rw [List.getD_cons_succ, List.getD_cons_succ,
    List.getD_append cexTail [(500, 0)] (0, 0) j (by rw [cexTail_length]; exact hj)]
  exact cexTail_getD j hj

lemma cexPts_getD_last : cexPts.getD 500 (0, 0) = (500, 0) := by
  show ((0, 0) :: (2000, 0) :: (cexTail ++ [(500, 0)]) : List (ℚ × ℚ)).getD (498 + 1 + 1)
      (0, 0) = _
  rw [List.getD_cons_succ, List.getD_cons_succ, List.getD_eq_getElem?_getD,
    List.getElem?_append_right (by rw [cexTail_length])]
  rw [cexTail_length]
  rfl

lemma cexDrop_eq : cexPts.drop 1 = (2000, 0) :: (cexTail ++ [(500, 0)]) := rfl

lemma cexDrop_length : (cexPts.drop 1).length = 500 := by
  rw [List.length_drop, cexPts_length]

lemma cexDrop_getD_zero : (cexPts.drop 1).getD 0 (0, 0) = (2000, 0) := rfl

lemma cexDrop_getD_mid (j : ℕ) (hj : j < 498) :
    (cexPts.drop 1).getD (j + 1) (0, 0) = (((503 + j : ℕ) : ℚ), 0) := by
  rw [cexDrop_eq, List.getD_cons_succ,
    List.getD_append cexTail [(500, 0)] (0, 0) j (by rw [cexTail_length]; exact hj)]
  exact cexTail_getD j hj

lemma cexDrop_getD_last : (cexPts.drop 1).getD 499 (0, 0) = (500, 0) := by
  rw [cexDrop_eq]
  show ((2000, 0) :: (cexTail ++ [(500, 0)]) : List (ℚ × ℚ)).getD (498 + 1) (0, 0) = _
  rw [List.getD_cons_succ, List.getD_eq_getElem?_getD,
    List.getElem?_append_right (by rw [cexTail_length])]
  rw [cexTail_length]
  rfl

lemma cex_d1 : pointToLineDistanceSq (cexPts.getD 1 (0, 0)) ((0 : ℚ), (0 : ℚ))
    ((500 : ℚ), (0 : ℚ)) = 2250000 := by
  rw [cexPts_getD_one]
  rw [ptldSq_horizontal_beyond 2000 0 500 (by norm_num) (by norm_num)]
  norm_num

lemma cex_dmid_le : ∀ i ∈ List.range' 2 498,
    pointToLineDistanceSq (cexPts.getD i (0, 0)) ((0 : ℚ), (0 : ℚ)) ((500 : ℚ), (0 : ℚ)) ≤
      pointToLineDistanceSq (cexPts.getD 1 (0, 0)) ((0 : ℚ), (0 : ℚ))
        ((500 : ℚ), (0 : ℚ)) := by
  intro i hi
  rw [cex_d1]
  have hmem := List.mem_range'_1.mp hi
  have hieq : i = (i - 2) + 2 := by omega
  rw [hieq, cexPts_getD_mid (i - 2) (by omega)]
  have hxlo : (503 : ℚ) ≤ ((503 + (i - 2) : ℕ) : ℚ) := by
    push_cast
    linarith [Nat.cast_nonneg (α := ℚ) (i - 2)]
  have hxhi : ((503 + (i - 2) : ℕ) : ℚ) ≤ 1000 := by
    have : (503 + (i - 2) : ℕ) ≤ 1000 := by omega
    exact_mod_cast this
  rw [ptldSq_horizontal_beyond _ 0 500 (by norm_num) (by
    rw [sub_zero, sub_zero, one_lt_div (by norm_num : (0:ℚ) < 500)]
    linarith)]
  nlinarith

lemma dpScan_cexPts : dpScan cexPts = (2250000, 1) := by
  unfold dpScan
  rw [cexPts_length]
  rw [show (501 : ℕ) - 1 = 500 from rfl, show (500 : ℕ) - 1 = 499 from rfl]
  rw [cexPts_getD_zero, cexPts_getD_last]
  rw [show (499 : ℕ) = 498 + 1 from rfl, List.range'_succ]
  rw [show (1 : ℕ) + 1 = 2 from rfl]
  rw [dpFold_first (fun i => cexPts.getD i (0, 0)) ((0 : ℚ), (0 : ℚ)) ((500 : ℚ), (0 : ℚ)) 1
    (List.range' 2 498) (by rw [cex_d1]; norm_num) cex_dmid_le]
  rw [cex_d1]

lemma dpScan_cexDrop : dpScan (cexPts.drop 1) = (0, 0) := by
  apply dpScan_eq_zero
  rw [cexDrop_length]
  rw [show (500 : ℕ) - 1 = 499 from rfl, show (499 : ℕ) - 1 = 498 from rfl]
  rw [cexDrop_getD_zero, cexDrop_getD_last]
  intro i hi
  have hmem := List.mem_range'_1.mp hi
  have hieq : i = (i - 1) + 1 := by omega
  rw [hieq, cexDrop_getD_mid (i - 1) (by omega)]
  have hxlo : (503 : ℚ) ≤ ((503 + (i - 1) : ℕ) : ℚ) := by
    push_cast
    linarith [Nat.cast_nonneg (α := ℚ) (i - 1)]
  have hxhi : ((503 + (i - 1) : ℕ) : ℚ) ≤ 1000 := by
    have : (503 + (i - 1) : ℕ) ≤ 1000 := by omega
    exact_mod_cast this
  have hdiv : (((503 + (i - 1) : ℕ) : ℚ) - 2000) / ((500 : ℚ) - 2000) =
      (2000 - ((503 + (i - 1) : ℕ) : ℚ)) / 1500 := by
    ring
  apply ptldSq_horizontal_on _ 2000 500 (by norm_num)
  · rw [hdiv]
    apply div_nonneg (by linarith) (by norm_num)
  · rw [hdiv]
    rw [div_le_one (by norm_num : (0:ℚ) < 1500)]
    linarith

lemma dpLeft_cex : douglasPeucker (cexPts.take 2) 1 = [((0 : ℚ), (0 : ℚ)), ((2000 : ℚ), (0 : ℚ))] := by
  have ht : cexPts.take 2 = [((0 : ℚ), (0 : ℚ)), ((2000 : ℚ), (0 : ℚ))] := rfl
  rw [ht, douglasPeucker]
  rw [if_pos (by simp)]

lemma dpRight_cex : douglasPeucker (cexPts.drop 1) 1 =
    [((2000 : ℚ), (0 : ℚ)), ((500 : ℚ), (0 : ℚ))] := by
  rw [douglasPeucker]
  rw [if_neg (by rw [cexDrop_length]; norm_num)]
  rw [dif_neg (by rw [dpScan_cexDrop]; norm_num)]
  rw [cexDrop_length]
  rw [show (500 : ℕ) - 1 = 499 from rfl]
  rw [cexDrop_getD_zero, cexDrop_getD_last]

lemma colPts_length : colPts.length = 501 := by
  simp [colPts]

lemma colPts_getD (i : ℕ) (hi : i < 501) : colPts.getD i (0, 0) = ((i : ℚ), 0) := by
  unfold colPts
  rw [List.getD_eq_getElem?_getD, List.getElem?_map, List.getElem?_range hi]
  rfl

lemma colPts_dist_zero : ∀ p ∈ colPts,
    pointToLineDistanceSq p (colPts.getD 0 (0, 0))
      (colPts.getD (colPts.length - 1) (0, 0)) = 0 := by
  intro p hp
  rw [colPts_length, show (501 : ℕ) - 1 = 500 from rfl]
  rw [colPts_getD 0 (by norm_num), colPts_getD 500 (by norm_num)]
  unfold colPts at hp
  obtain ⟨i, hi, rfl⟩ := List.mem_map.mp hp
  rw [List.mem_range] at hi
  push_cast
  apply ptldSq_horizontal_on _ 0 500 (by norm_num)
  · rw [sub_zero, sub_zero]
    apply div_nonneg (Nat.cast_nonneg i) (by norm_num)
  · rw [sub_zero, sub_zero, div_le_one (by norm_num : (0 : ℚ) < 500)]
    have : i ≤ 500 := by omega
    exact_mod_cast this

/-- **C8 counterexample.** A path of 501 collinear points (all with
`y = 0`) on which `douglasPeucker` with tolerance 1.0 does not reduce to
the 2 endpoints: the result has 3 points, because the second point's
perpendicular foot lies beyond the first-to-last segment. -/
theorem douglasPeucker_collinear_cex :
    cexPts.length = 501 ∧
    (∀ p ∈ cexPts, p.2 = 0) ∧
    douglasPeucker cexPts 1 =
      [((0 : ℚ), (0 : ℚ)), ((2000 : ℚ), (0 : ℚ)), ((500 : ℚ), (0 : ℚ))] ∧
    (douglasPeucker cexPts 1).length ≠ 2 := by
  have hall : ∀ p ∈ cexPts, p.2 = 0 := by
    intro p hp
    simp only [cexPts, List.mem_cons, List.mem_append, List.mem_singleton,
      List.not_mem_nil, or_false] at hp
    rcases hp with rfl | rfl | hmid | rfl
    · rfl
    · rfl
    · unfold cexTail at hmid
      obtain ⟨j, hj, rfl⟩ := List.mem_map.mp hmid
      rfl
    · rfl
  have hdp : douglasPeucker cexPts 1 =
      [((0 : ℚ), (0 : ℚ)), ((2000 : ℚ), (0 : ℚ)), ((500 : ℚ), (0 : ℚ))] := by
    rw [douglasPeucker_step cexPts 1 (by rw [cexPts_length]; norm_num)
      (by rw [dpScan_cexPts]; norm_num)]
    rw [dpScan_cexPts]
    show (douglasPeucker (cexPts.take 2) 1).dropLast ++ douglasPeucker (cexPts.drop 1) 1 = _
    rw [dpLeft_cex, dpRight_cex]
    rfl
  exact ⟨cexPts_length, hall, hdp, by rw [hdp]; simp⟩

/-- **C8 (amended).** Douglas-Peucker with perpendicular point-to-segment
distance is applied by the perimeter extractor only when the stitched path
exceeds 500 points, with a 1-pixel tolerance; and on any path of 501
collinear points each of which lies on the segment between the first and
the last point (perpendicular segment distance zero, as in an ordered
straight-line path), tolerance 1.0 returns exactly the 2 endpoints.  (An
unordered collinear path whose interior points project beyond the
endpoints can yield more than 2 points.) -/
theorem douglasPeucker_gate_and_collinear :
    (∀ (img : Image) (c : ℚ × ℚ) (remaining : List (ℚ × ℚ)),
        (edgePixels img).isEmpty = false →
        simplifyClose ((edgePixels img).map toQPoint) = c :: remaining →
        detectColorPerimeter img =
          some (if 500 < (buildPath [c] c remaining).length
                then douglasPeucker (buildPath [c] c remaining) 1
                else buildPath [c] c remaining)) ∧
    (∀ points : List (ℚ × ℚ),
        points.length = 501 →
        (∀ p ∈ points, pointToLineDistanceSq p (points.getD 0 (0, 0))
            (points.getD (points.length - 1) (0, 0)) = 0) →
        douglasPeucker points 1 = [points.getD 0 (0, 0), points.getD 500 (0, 0)]) := by
  constructor
  · intro img c remaining h1 h2
    unfold detectColorPerimeter
    simp only [h1, Bool.false_eq_true, if_false]
    rw [h2]
  · intro points h501 hz
    rw [douglasPeucker]
    rw [if_neg (by rw [h501]; norm_num)]
    have hscan : dpScan points = (0, 0) := by
      apply dpScan_eq_zero
      intro i hi
      have hmem := List.mem_range'_1.mp hi
      apply hz
      rw [List.getD_eq_getElem _ _ (by omega)]
      exact List.getElem_mem _
    rw [dif_neg (by rw [hscan]; norm_num)]
    rw [h501, show (501 : ℕ) - 1 = 500 from rfl]

/-- **C8 witness.** The amended theorem at the monotone collinear path
`(0,0) .. (500,0)` of 501 points, and the Douglas-Peucker gate at the
one-pixel raster. -/
theorem douglasPeucker_gate_and_collinear_witness :
    colPts.length = 501 ∧
    douglasPeucker colPts 1 = [colPts.getD 0 (0, 0), colPts.getD 500 (0, 0)] ∧
    detectColorPerimeter onePixelImage =
      some (if 500 < (buildPath [((0 : ℚ), (0 : ℚ))] ((0 : ℚ), (0 : ℚ)) []).length
            then douglasPeucker (buildPath [((0 : ℚ), (0 : ℚ))] ((0 : ℚ), (0 : ℚ)) []) 1
            else buildPath [((0 : ℚ), (0 : ℚ))] ((0 : ℚ), (0 : ℚ)) []) :=
  ⟨colPts_length,
   douglasPeucker_gate_and_collinear.2 colPts colPts_length colPts_dist_zero,
   douglasPeucker_gate_and_collinear.1 onePixelImage ((0 : ℚ), (0 : ℚ)) [] (by decide) (by
     rw [show edgePixels onePixelImage = [(0, 0)] from by decide]
     simp [toQPoint, simplifyClose])⟩

/-- **C7 counterexample.** A raster with at least one edge pixel whose
extracted perimeter ring, although closed, has fewer than 3 distinct
vertices: a single opaque pixel yields a one-vertex ring. -/
theorem extractPerimeterGeo_distinct_cex :
    1 ≤ (edgePixels onePixelImage).length ∧
    extractPerimeterGeo onePixelImage unitBounds = some [((1 : ℚ), (0 : ℚ))] ∧
    ([((1 : ℚ), (0 : ℚ))] : List (ℚ × ℚ)).dedup.length < 3 := by
  refine ⟨by decide, ?_, by simp⟩
  have hedge : edgePixels onePixelImage = [(0, 0)] := by decide
  have hsimp : simplifyClose ((edgePixels onePixelImage).map toQPoint) = [((0 : ℚ), (0 : ℚ))] := by
    rw [hedge]
    simp [toQPoint, simplifyClose]
  have hdet : detectColorPerimeter onePixelImage = some [((0 : ℚ), (0 : ℚ))] := by
    unfold detectColorPerimeter
    rw [hedge]
    simp only [List.isEmpty_cons, if_false]
    rw [hedge] at hsimp
    rw [hsimp]
    simp only []
    rw [buildPath]
    norm_num
  unfold extractPerimeterGeo
  rw [hdet]
  simp only [Option.map_some', Option.some.injEq]
  have hconv : pixelsToLatLng [((0 : ℚ), (0 : ℚ))] (onePixelImage.width : ℚ)
      (onePixelImage.height : ℚ) unitBounds = [((1 : ℚ), (0 : ℚ))] := by
    simp [pixelsToLatLng, unitBounds, onePixelImage]
  rw [hconv]
  simp [closeRing]

/-- **C7 (amended).** The perimeter pipeline (`detectColorPerimeter`
followed by geographic conversion and the ring-closing step of
`drawZoneBorder`) always yields a nonempty closed ring: its first vertex
equals its last (the first vertex is appended when not already equal to
the last).  The ring can, however, have fewer than 3 distinct vertices
(e.g. a raster with a single colored pixel). -/
theorem extractPerimeterGeo_closed :
    ∀ (img : Image) (bounds : Bounds) (ring : List (ℚ × ℚ)),
      extractPerimeterGeo img bounds = some ring →
      ring ≠ [] ∧ ring.head? = ring.getLast? := by
  intro img bounds ring h
  unfold extractPerimeterGeo at h
  rcases hd : detectColorPerimeter img with _ | l
  · rw [hd] at h
    exact absurd h (by simp)
  · rw [hd] at h
    simp only [Option.map_some', Option.some.injEq] at h
    have hlne : l ≠ [] := detectColorPerimeter_ne_nil img l hd
    have hmapne : pixelsToLatLng l (img.width : ℚ) (img.height : ℚ) bounds ≠ [] := by
      unfold pixelsToLatLng
      simpa using hlne
    rw [← h]
    exact ⟨closeRing_ne_nil _ hmapne, closeRing_closed _ hmapne⟩

/-- **C7 witness.** The closedness theorem at the 2×2 one-dot raster. -/
theorem extractPerimeterGeo_closed_witness :
    ∃ ring : List (ℚ × ℚ), extractPerimeterGeo dotImage unitBounds = some ring ∧
      ring ≠ [] ∧ ring.head? = ring.getLast? := by
  have hedge : edgePixels dotImage = [(0, 0)] := by decide
  have hdet : ∃ l, detectColorPerimeter dotImage = some l := by
    unfold detectColorPerimeter
    rw [hedge]
    simp only [List.isEmpty_cons, if_false]
    have hsimp : simplifyClose ([((0 : ℕ), (0 : ℕ))].map toQPoint) = [((0 : ℚ), (0 : ℚ))] := by
      simp [toQPoint, simplifyClose]
    rw [hsimp]
    exact ⟨_, rfl⟩
  obtain ⟨l, hl⟩ := hdet
  refine ⟨closeRing (pixelsToLatLng l (dotImage.width : ℚ) (dotImage.height : ℚ) unitBounds),
    ?_, ?_⟩
  · unfold extractPerimeterGeo
    rw [hl]
    rfl
  · exact extractPerimeterGeo_closed dotImage unitBounds _ (by
      unfold extractPerimeterGeo
      rw [hl]
      rfl)

/-- **C9 witness.** The invariant at the 2×2 raster with one colored
pixel, together with a concrete downstream bounds adjustment. -/
theorem detectImageContentBounds_nondegenerate_witness :
    ∃ r : ContentBounds, detectImageContentBounds dotImage = some r ∧
      0 ≤ r.minX ∧ r.minX < r.maxX ∧
      (adjustOverlayBoundsToContent (some r) unitBounds).south <
        (adjustOverlayBoundsToContent (some r) unitBounds).north := by
  obtain ⟨r, hr⟩ := detectImageContentBounds_isSome_of_found dotImage (by decide)
  obtain ⟨⟨c1, c2, _⟩, hadj⟩ := detectImageContentBounds_nondegenerate dotImage r hr
  exact ⟨r, hr, c1, c2, (hadj unitBounds (by norm_num [unitBounds]) (by norm_num [unitBounds])).1⟩

end FloodZone
